import Mathlib

set_option maxRecDepth 100000

/-!
# Verification of the haplotype resolution core (`haplotype_resolver.cpp`)

This file gives a shallow embedding of the three graph-simplification passes of
the haplotype resolver (`collapseHeterozygousBulges`, `collapseHeterozygousLoops`,
`findComplexHaplotypes`) and proves properties of them.

The embedding follows the C++ source line by line.  The surrounding data model
(graph, edges, nodes, unbranching paths, alignments) is not part of the source
tree, so it is modelled from the specification: coverages are rationals (the
spec declares `meanCoverage: float`; ℚ gives the same exact arithmetic on the
concrete inputs used here), edges and nodes live in lists indexed by natural
numbers, and the reverse-complement twin of an edge is given by a fixed
function `complementEdge` of the graph.

Mutation is modelled by explicit state passing: each pass maps a graph state
(plus the collaborator-provided unbranching paths / alignments) to a new graph
state and its integer return value.  Points where the C++ would dereference a
null pointer or index out of bounds (undefined behaviour) are modelled as
skips / default values; they are marked by comments.
-/

abbrev EdgeId := Nat
abbrev NodeId := Nat

/-- Modelled from the spec: `SeqId` (a `FastaRecord::Id`) carries a numeric
identity and a strand bit; `rc` flips the strand. -/
structure SeqId where
  num : Nat
  strand : Bool
deriving DecidableEq

/-- Reverse complement of a sequence id: same identity, opposite strand. -/
def SeqId.rc (s : SeqId) : SeqId := ⟨s.num, !s.strand⟩

/-- Modelled from the spec: graph edge record (`GraphEdge`), with the fields the
passes consult: endpoints, length, mean coverage, the `altHaplotype` mask and
the `selfComplement` flag. -/
structure GraphEdge where
  edgeId : SeqId
  nodeLeft : NodeId
  nodeRight : NodeId
  edgeLen : Nat
  meanCoverage : ℚ
  altHaplotype : Bool
  selfComplement : Bool
deriving DecidableEq

/-- Modelled from the spec: graph node (`GraphNode`) with its two ordered
adjacency lists. -/
structure GraphNode where
  inEdges : List EdgeId
  outEdges : List EdgeId
deriving DecidableEq

def defaultEdge : GraphEdge := ⟨⟨0, true⟩, 0, 0, 0, 0, false, false⟩

def defaultNode : GraphNode := ⟨[], []⟩

/-- Modelled from the spec: the mutable graph state.  `complementEdge` is the
twin-edge map exposed by the graph collaborator; it is never mutated by the
passes. -/
structure RepeatGraph where
  edges : List GraphEdge
  nodes : List GraphNode
  complementEdge : EdgeId → EdgeId

def RepeatGraph.edge (g : RepeatGraph) (i : EdgeId) : GraphEdge :=
  g.edges.getD i defaultEdge

def RepeatGraph.node (g : RepeatGraph) (v : NodeId) : GraphNode :=
  g.nodes.getD v defaultNode

/-- Replace edge `i` by `f` applied to its current value (no-op out of bounds;
in the C++ all edge references are live pointers, so out of bounds never
happens on real inputs). -/
def RepeatGraph.setEdge (g : RepeatGraph) (i : EdgeId) (f : GraphEdge → GraphEdge) :
    RepeatGraph :=
  { g with edges := g.edges.set i (f (g.edge i)) }

def RepeatGraph.setNode (g : RepeatGraph) (v : NodeId) (f : GraphNode → GraphNode) :
    RepeatGraph :=
  { g with nodes := g.nodes.set v (f (g.node v)) }

/-- `GraphNode* newNode = _graph.addNode()`: appends a fresh empty node; the
fresh node's index is the old length. -/
def RepeatGraph.addNode (g : RepeatGraph) : RepeatGraph :=
  { g with nodes := g.nodes ++ [defaultNode] }

/-- `vecRemove(vec, elem)`: remove the first matching entry. -/
def vecRemove (l : List EdgeId) (e : EdgeId) : List EdgeId := l.erase e

/-- Modelled from the spec: an unbranching path as returned by
`GraphProcessor::getUnbranchingPaths` — an ordered sequence of edges together
with its stored id, total length and length-weighted mean coverage. -/
structure UnbranchingPath where
  id : SeqId
  path : List EdgeId
  length : Nat
  meanCoverage : ℚ
deriving DecidableEq

/-- `path.path.front()` (paths are non-empty on real inputs). -/
def UnbranchingPath.front (p : UnbranchingPath) : EdgeId := p.path.headD 0

/-- `path.path.back()`. -/
def UnbranchingPath.back (p : UnbranchingPath) : EdgeId := p.path.getLastD 0

/-- `path.nodeLeft()` = the first edge's source node. -/
def RepeatGraph.pathNodeLeft (g : RepeatGraph) (p : UnbranchingPath) : NodeId :=
  (g.edge p.front).nodeLeft

/-- `path.nodeRight()` = the last edge's target node. -/
def RepeatGraph.pathNodeRight (g : RepeatGraph) (p : UnbranchingPath) : NodeId :=
  (g.edge p.back).nodeRight

/-- `path.isLooped()` = `nodeLeft() == nodeRight()`. -/
def RepeatGraph.pathIsLooped (g : RepeatGraph) (p : UnbranchingPath) : Bool :=
  decide (g.pathNodeLeft p = g.pathNodeRight p)

/-- `std::unordered_set` insertion: add the element unless already present. -/
def setInsert (s : List SeqId) (x : SeqId) : List SeqId :=
  if x ∈ s then s else x :: s

/-- `MAX_COV_VAR` / `COV_MULT` constant 1.5 from the source. -/
def MAX_COV_VAR : ℚ := 3 / 2

/-! ## `collapseHeterozygousBulges` (haplotype_resolver.cpp lines 12–133) -/

/-- State carried through the detection scan of the bulge pass. -/
structure BulgeScanState where
  g : RepeatGraph
  toSeparate : List SeqId
  numMasked : Nat

/-- Lines 26–34: collect all paths sharing both endpoints with `p`
(`p` itself included). -/
def bulgeTwoPaths (g : RepeatGraph) (ups : List UnbranchingPath)
    (p : UnbranchingPath) : List UnbranchingPath :=
  ups.filter fun c =>
    decide (g.pathNodeLeft c = g.pathNodeLeft p ∧ g.pathNodeRight c = g.pathNodeRight p)

/-- Lines 41–44: the degree test on the shared endpoints. -/
def bulgeDegreeOk (g : RepeatGraph) (a : UnbranchingPath) : Bool :=
  decide ((g.node (g.pathNodeLeft a)).inEdges.length = 1 ∧
          (g.node (g.pathNodeLeft a)).outEdges.length = 2 ∧
          (g.node (g.pathNodeRight a)).outEdges.length = 1 ∧
          (g.node (g.pathNodeRight a)).inEdges.length = 2)

/-- Lines 24–44: the structural checks of the bulge detection, up to (and
including) the degree test.  Returns the two candidate branches in the order
they occur in the path list. -/
def bulgeCandidate (g : RepeatGraph) (ups : List UnbranchingPath)
    (toSep : List SeqId) (p : UnbranchingPath) :
    Option (UnbranchingPath × UnbranchingPath) :=
  if g.pathIsLooped p then none
  else
    match bulgeTwoPaths g ups p with
    | [a, b] =>
      if a.id = b.id.rc then none
      else if a.id ∈ toSep ∨ b.id ∈ toSep then none
      else if bulgeDegreeOk g a then some (a, b) else none
    | _ => none

/-- Lines 46–53: the entrance is the last path (in list order) whose right node
is the bubble's left node. -/
def bulgeEntrance (g : RepeatGraph) (ups : List UnbranchingPath)
    (a : UnbranchingPath) : Option UnbranchingPath :=
  (ups.filter fun c => decide (g.pathNodeRight c = g.pathNodeLeft a)).getLast?

/-- Lines 46–53: the exit is the last path whose left node is the bubble's
right node. -/
def bulgeExit (g : RepeatGraph) (ups : List UnbranchingPath)
    (a : UnbranchingPath) : Option UnbranchingPath :=
  (ups.filter fun c => decide (g.pathNodeLeft c = g.pathNodeRight a)).getLast?

/-- `edge->… = …; complementEdge(edge)->… = …;` — the same field update applied
to an edge and then to its twin. -/
def pairUpdate (g : RepeatGraph) (e : EdgeId) (F : GraphEdge → GraphEdge) :
    RepeatGraph :=
  (g.setEdge e F).setEdge (g.complementEdge e) F

/-- `edge->altHaplotype = v; complementEdge(edge)->altHaplotype = v;` -/
def markEdgePairAlt (g : RepeatGraph) (e : EdgeId) (v : Bool) : RepeatGraph :=
  pairUpdate g e fun x => { x with altHaplotype := v }

/-- Lines 81–85: mark every edge of a path (and its twin) as `altHaplotype`. -/
def markPathAlt (g : RepeatGraph) (p : UnbranchingPath) : RepeatGraph :=
  p.path.foldl (fun gg e => markEdgePairAlt gg e true) g

/-- Lines 92–98: add the removed branch's coverage into every edge of the kept
branch (and twins) and clear their `altHaplotype` flags. -/
def addCovClearAlt (g : RepeatGraph) (p : UnbranchingPath) (c : ℚ) : RepeatGraph :=
  p.path.foldl
    (fun gg e =>
      pairUpdate (pairUpdate gg e fun x => { x with meanCoverage := x.meanCoverage + c })
        e fun x => { x with altHaplotype := false })
    g

/-- Lines 71–99: the action on an accepted bubble, with `a` the
lower-coverage (alternative) branch after the swap: count the mask, mark both
branches and their twins, and in collapse mode stage both strands of `a` and
fold `a`'s coverage into `b`. -/
def bulgeAccept (removeAlternatives : Bool) (st : BulgeScanState)
    (a b : UnbranchingPath) : BulgeScanState :=
  let m := if !(st.g.edge a.front).altHaplotype ∨ !(st.g.edge b.front).altHaplotype
           then st.numMasked + 1 else st.numMasked
  let g1 := markPathAlt (markPathAlt st.g a) b
  if removeAlternatives then
    ⟨addCovClearAlt g1 b a.meanCoverage,
     setInsert (setInsert st.toSeparate a.id) a.id.rc, m⟩
  else ⟨g1, st.toSeparate, m⟩

/-- One iteration of the detection loop (lines 22–100) of
`collapseHeterozygousBulges`.  The `| _, _ => st` branch corresponds to a null
dereference of `entrancePath`/`exitPath` in the C++ (undefined behaviour);
under the extractor's contract it is unreachable (see the lookup theorems). -/
def bulgeScanStep (maxBubbleLen : Nat) (removeAlternatives : Bool)
    (ups : List UnbranchingPath) (st : BulgeScanState) (p : UnbranchingPath) :
    BulgeScanState :=
  match bulgeCandidate st.g ups st.toSeparate p with
  | none => st
  | some (a0, b0) =>
    if max a0.length b0.length > maxBubbleLen then st
    else
      match bulgeEntrance st.g ups a0, bulgeExit st.g ups a0 with
      | some ent, some ex =>
        if a0.meanCoverage + b0.meanCoverage >
            min (ent.meanCoverage * MAX_COV_VAR) (ex.meanCoverage * MAX_COV_VAR) then st
        else if max a0.length b0.length > max ent.length ex.length then st
        else if a0.meanCoverage > b0.meanCoverage then bulgeAccept removeAlternatives st b0 a0
        else bulgeAccept removeAlternatives st a0 b0
      | _, _ => st

/-- The detection scan started from an arbitrary state, over a list of paths
(`ups` stays the full lookup list). -/
def bulgeScanFrom (maxBubbleLen : Nat) (removeAlternatives : Bool)
    (ups : List UnbranchingPath) (st : BulgeScanState)
    (l : List UnbranchingPath) : BulgeScanState :=
  l.foldl (bulgeScanStep maxBubbleLen removeAlternatives ups) st

/-- The scan state after processing the first `k` paths. -/
def bulgeScanUpTo (maxBubbleLen : Nat) (removeAlternatives : Bool)
    (g : RepeatGraph) (ups : List UnbranchingPath) (k : Nat) : BulgeScanState :=
  bulgeScanFrom maxBubbleLen removeAlternatives ups ⟨g, [], 0⟩ (ups.take k)

/-- Lines 110–117: separate a staged path onto two fresh boundary nodes. -/
def separatePath (g : RepeatGraph) (p : UnbranchingPath) : RepeatGraph :=
  let newLeft := g.nodes.length
  let newRight := g.nodes.length + 1
  let g1 := g.addNode.addNode
  let oldLeft := g1.pathNodeLeft p
  let oldRight := g1.pathNodeRight p
  let g2 := g1.setNode oldLeft fun n => { n with outEdges := vecRemove n.outEdges p.front }
  let g3 := g2.setNode oldRight fun n => { n with inEdges := vecRemove n.inEdges p.back }
  let g4 := g3.setEdge p.front fun e => { e with nodeLeft := newLeft }
  let g5 := g4.setEdge p.back fun e => { e with nodeRight := newRight }
  let g6 := g5.setNode newLeft fun n => { n with outEdges := n.outEdges ++ [p.front] }
  g6.setNode newRight fun n => { n with inEdges := n.inEdges ++ [p.back] }

/-- `HaplotypeResolver::collapseHeterozygousBulges` (lines 12–133).
`maxBubbleLen` is the configuration value `Config::get("max_bubble_length")`;
`ups` is the collaborator-provided list of unbranching paths.  Returns the new
graph state and the function's integer return value. -/
def collapseHeterozygousBulges (maxBubbleLen : Nat) (g : RepeatGraph)
    (ups : List UnbranchingPath) (removeAlternatives : Bool) :
    RepeatGraph × Nat :=
  let st := bulgeScanFrom maxBubbleLen removeAlternatives ups ⟨g, [], 0⟩ ups
  if removeAlternatives then
    let g2 := ups.foldl
      (fun gg p => if p.id ∈ st.toSeparate then separatePath gg p else gg) st.g
    (g2, st.toSeparate.length / 2)
  else (st.g, st.numMasked)

/-! ## `collapseHeterozygousLoops` (haplotype_resolver.cpp lines 139–246) -/

/-- State carried through the detection scan of the loop pass. -/
structure LoopScanState where
  g : RepeatGraph
  toUnroll : List SeqId
  toRemove : List SeqId
  numMasked : Nat

/-- Lines 151–157: the structural pre-checks of the loop detection, up to (and
including) the degree test: strand representative, looped, first edge not
self-complementary, boundary node with 2 in- and 2 out-edges. -/
def loopReachesLookups (g : RepeatGraph) (loop : UnbranchingPath) : Bool :=
  loop.id.strand && g.pathIsLooped loop &&
    !(g.edge loop.front).selfComplement &&
    decide ((g.node (g.pathNodeLeft loop)).inEdges.length = 2 ∧
            (g.node (g.pathNodeLeft loop)).outEdges.length = 2)

/-- Lines 159–167: the entrance is the last path whose right node is the loop's
node and whose id differs from the loop's. -/
def loopEntrance (g : RepeatGraph) (ups : List UnbranchingPath)
    (loop : UnbranchingPath) : Option UnbranchingPath :=
  (ups.filter fun c =>
    decide (g.pathNodeRight c = g.pathNodeLeft loop ∧ loop.id ≠ c.id)).getLast?

/-- Lines 159–167: the exit is the last path whose left node is the loop's node
and whose id differs from the loop's. -/
def loopExit (g : RepeatGraph) (ups : List UnbranchingPath)
    (loop : UnbranchingPath) : Option UnbranchingPath :=
  (ups.filter fun c =>
    decide (g.pathNodeLeft c = g.pathNodeLeft loop ∧ loop.id ≠ c.id)).getLast?

/-- Lines 181–198: the action on an accepted loop: count the mask, mark the
loop's edges and twins, then stage both strands for removal or unrolling by
the coverage policy. -/
def loopAccept (st : LoopScanState) (loop ent ex : UnbranchingPath) :
    LoopScanState :=
  let m := if !(st.g.edge loop.front).altHaplotype
           then st.numMasked + 1 else st.numMasked
  let g1 := markPathAlt st.g loop
  if loop.meanCoverage < (ent.meanCoverage + ex.meanCoverage) / 4 then
    ⟨g1, st.toUnroll, setInsert (setInsert st.toRemove loop.id) loop.id.rc, m⟩
  else
    ⟨g1, setInsert (setInsert st.toUnroll loop.id) loop.id.rc, st.toRemove, m⟩

/-- One iteration of the detection loop (lines 149–199) of
`collapseHeterozygousLoops`.  The `| _, _ => st` branch corresponds to the
null dereference of `entrancePath`/`exitPath` at lines 169–170 (undefined
behaviour); under the extractor's contract it is unreachable. -/
def loopScanStep (ups : List UnbranchingPath) (st : LoopScanState)
    (loop : UnbranchingPath) : LoopScanState :=
  if !loopReachesLookups st.g loop then st
  else
    match loopEntrance st.g ups loop, loopExit st.g ups loop with
    | some ent, some ex =>
      if st.g.pathIsLooped ent then st
      else if ent.id = ex.id.rc then st
      else if loop.meanCoverage >
          MAX_COV_VAR * min ent.meanCoverage ent.meanCoverage then st
      else if loop.length > max ent.length ex.length then st
      else loopAccept st loop ent ex
    | _, _ => st

/-- The loop-pass detection scan from an arbitrary state. -/
def loopScanFrom (ups : List UnbranchingPath) (st : LoopScanState)
    (l : List UnbranchingPath) : LoopScanState :=
  l.foldl (loopScanStep ups) st

/-- The loop-pass scan state after the first `k` paths. -/
def loopScanUpTo (g : RepeatGraph) (ups : List UnbranchingPath) (k : Nat) :
    LoopScanState :=
  loopScanFrom ups ⟨g, [], [], 0⟩ (ups.take k)

/-- Lines 209–218: unroll a staged loop through a fresh node.  The adjacency
index reads use default `0` where the C++ would index out of bounds. -/
def unrollLoop (g : RepeatGraph) (p : UnbranchingPath) : RepeatGraph :=
  let newNode := g.nodes.length
  let g1 := g.addNode
  let nl := g1.pathNodeLeft p
  let idx := if (g1.node nl).inEdges.getD 0 0 = p.back then 1 else 0
  let prevEdge := (g1.node nl).inEdges.getD idx 0
  let g2 := g1.setNode nl fun n => { n with outEdges := vecRemove n.outEdges p.front }
  let g3 := g2.setNode nl fun n => { n with inEdges := vecRemove n.inEdges prevEdge }
  let g4 := g3.setEdge p.front fun e => { e with nodeLeft := newNode }
  let g5 := g4.setNode newNode fun n => { n with outEdges := n.outEdges ++ [p.front] }
  let g6 := g5.setEdge prevEdge fun e => { e with nodeRight := newNode }
  g6.setNode newNode fun n => { n with inEdges := n.inEdges ++ [prevEdge] }

/-- Lines 224–232: detach a staged loop onto two fresh nodes (note the C++
removes both endpoints from the loop's `nodeLeft`, which equals `nodeRight`
for a looped path). -/
def removeLoop (g : RepeatGraph) (p : UnbranchingPath) : RepeatGraph :=
  let newLeft := g.nodes.length
  let newRight := g.nodes.length + 1
  let g1 := g.addNode.addNode
  let nl := g1.pathNodeLeft p
  let g2 := g1.setNode nl fun n => { n with outEdges := vecRemove n.outEdges p.front }
  let g3 := g2.setNode nl fun n => { n with inEdges := vecRemove n.inEdges p.back }
  let g4 := g3.setEdge p.front fun e => { e with nodeLeft := newLeft }
  let g5 := g4.setNode newRight fun n => { n with inEdges := n.inEdges ++ [p.back] }
  let g6 := g5.setEdge p.back fun e => { e with nodeRight := newRight }
  g6.setNode newLeft fun n => { n with outEdges := n.outEdges ++ [p.front] }

/-- `HaplotypeResolver::collapseHeterozygousLoops` (lines 139–246). -/
def collapseHeterozygousLoops (g : RepeatGraph) (ups : List UnbranchingPath)
    (removeAlternatives : Bool) : RepeatGraph × Nat :=
  let st := loopScanFrom ups ⟨g, [], [], 0⟩ ups
  if removeAlternatives then
    let g2 := ups.foldl
      (fun gg p =>
        let gg1 := if p.id ∈ st.toUnroll then unrollLoop gg p else gg
        if p.id ∈ st.toRemove then removeLoop gg1 p else gg1)
      st.g
    (g2, (st.toRemove.length + st.toUnroll.length) / 2)
  else (st.g, st.numMasked)

/-! ## `findComplexHaplotypes` (haplotype_resolver.cpp lines 250–491) -/

/-- Modelled from the spec: one record of a graph alignment (`EdgeAlignment`):
the edge it aligns to and the read-coordinate end position
(`overlap.curEnd`). -/
structure EdgeAlignment where
  edge : EdgeId
  curEnd : Int
deriving DecidableEq

/-- Modelled from the spec: a graph alignment is an ordered sequence of edge
alignments. -/
abbrev GraphAlignment := List EdgeAlignment

def defaultEdgeAlignment : EdgeAlignment := ⟨0, 0⟩

def alnContainsEdge (a : GraphAlignment) (e : EdgeId) : Bool :=
  a.any fun r => decide (r.edge = e)

/-- Lines 252–300: the alignment index keeps, for every edge, the alignments of
length > 1 touching it, in the aligner's order; `outPathsFor` then takes, for
each such alignment, the suffix starting at the first occurrence of
`startEdge`. -/
def outPathsFor (alns : List GraphAlignment) (startEdge : EdgeId) :
    List GraphAlignment :=
  (alns.filter fun a => decide (1 < a.length) && alnContainsEdge a startEdge).map
    fun a => a.dropWhile fun r => !decide (r.edge = startEdge)

/-- Read-coordinate span of an out-path:
`back.overlap.curEnd - front.overlap.curEnd` (lines 302–305). -/
def alnSpan (a : GraphAlignment) : Int :=
  (a.getLastD defaultEdgeAlignment).curEnd - (a.headD defaultEdgeAlignment).curEnd

/-- Insertion sort by span, descending (a deterministic model of the
`std::sort` at lines 302–305; ties keep the input order). -/
def insertBySpan (x : GraphAlignment) : List GraphAlignment → List GraphAlignment
  | [] => [x]
  | y :: ys => if alnSpan x > alnSpan y then x :: y :: ys else y :: insertBySpan x ys

def sortBySpanDesc (l : List GraphAlignment) : List GraphAlignment :=
  l.foldr insertBySpan []

/-- `PathWithScore` (lines 309–313). -/
structure PathWithScore where
  path : GraphAlignment
  score : Nat
deriving DecidableEq

/-- Lines 322–330: prefix containment up to the shorter length
(`List.zip` truncates to the minimum length). -/
def containedIn (t r : GraphAlignment) : Bool :=
  (t.zip r).all fun pr => decide (pr.1.edge = pr.2.edge)

/-- Lines 318–337: bump the score of the first group whose reference contains
the candidate. -/
def bumpFirstContaining (t : GraphAlignment) :
    List PathWithScore → Option (List PathWithScore)
  | [] => none
  | gp :: rest =>
    if containedIn t gp.path then some ({ gp with score := gp.score + 1 } :: rest)
    else (bumpFirstContaining t rest).map (gp :: ·)

/-- Lines 316–342: add one candidate to the group list. -/
def addToGroups (groups : List PathWithScore) (t : GraphAlignment) :
    List PathWithScore :=
  match bumpFirstContaining t groups with
  | some gs => gs
  | none => groups ++ [⟨t, 1⟩]

def groupOutPaths (outPaths : List GraphAlignment) : List PathWithScore :=
  outPaths.foldl addToGroups []

/-- Lines 349–361: an edge is a repeat if it occurs more than once in some
group's reference path. -/
def isRepeatIn (groups : List PathWithScore) (e : EdgeId) : Bool :=
  groups.any fun gp => decide (2 ≤ (gp.path.filter fun r => decide (r.edge = e)).length)

/-- Lines 365–386: membership in the convergence-edge set — on the reference
path (the first group), not looped, not a repeat, and present in every other
group's reference. -/
def convergenceB (loopedEdges : List EdgeId) (groups : List PathWithScore)
    (e : EdgeId) : Bool :=
  match groups with
  | [] => false
  | ref :: rest =>
    alnContainsEdge ref.path e && !(loopedEdges.contains e) &&
      !(isRepeatIn groups e) && rest.all fun gp => alnContainsEdge gp.path e

/-- Lines 392–403: the agreement test at position `i` (looking at `i + 1`).
Reading `pathGroups[0].path[i+1]` out of bounds would be undefined behaviour
in the C++; it is modelled as disagreement. -/
def agreementAt (conv : EdgeId → Bool) (groups : List PathWithScore) (i : Nat) :
    Bool :=
  match groups with
  | [] => true
  | g0 :: rest =>
    rest.all fun gp =>
      match gp.path.get? (i + 1), g0.path.get? (i + 1) with
      | some a, some b => conv b.edge && decide (a.edge = b.edge)
      | _, _ => false

/-- Lines 389–406: walk forward while all groups agree.  Fuelled recursion;
the caller passes fuel exceeding the second group's length, which bounds the
C++ loop. -/
def bubbleStartGo (conv : EdgeId → Bool) (groups : List PathWithScore) :
    Nat → Nat → Nat
  | i, 0 => i
  | i, fuel + 1 =>
    if agreementAt conv groups i then bubbleStartGo conv groups (i + 1) fuel else i

def findBubbleStart (conv : EdgeId → Bool) (groups : List PathWithScore) : Nat :=
  bubbleStartGo conv groups 0
    ((match groups.get? 1 with | some gp => gp.path.length | none => 0) + 1)

/-- Lines 409–419: first index after `bubbleStartId` whose edge is a
convergence edge. -/
def findBubbleEnd (conv : EdgeId → Bool) (ref : GraphAlignment) (s : Nat) :
    Option Nat :=
  match (ref.drop (s + 1)).findIdx? (fun r => conv r.edge) with
  | some k => some (s + 1 + k)
  | none => none

/-- Lines 425–434: the trim bounds of one group — the fold keeps overwriting,
so each bound ends up at the LAST occurrence of the corresponding boundary
edge (0 if the edge does not occur). -/
def trimBounds (p : GraphAlignment) (sE eE : EdgeId) : Nat × Nat :=
  p.enum.foldl
    (fun (b : Nat × Nat) (ie : Nat × EdgeAlignment) =>
      (if ie.2.edge = sE then ie.1 else b.1, if ie.2.edge = eE then ie.1 else b.2))
    (0, 0)

/-- Lines 435–436: `GraphAlignment(begin + groupStart, begin + groupEnd + 1)`.
When `groupStart > groupEnd + 1` the C++ constructor is undefined behaviour;
the model returns the empty alignment (as the C++ does in the reachable
boundary case `groupStart = groupEnd + 1`). -/
def trimGroup (p : GraphAlignment) (sE eE : EdgeId) : GraphAlignment :=
  let b := trimBounds p sE eE
  (p.take (b.2 + 1)).drop b.1

/-- Lines 442–447: branch equality by edge sequence. -/
def sameEdgeSeq (a b : GraphAlignment) : Bool :=
  decide (a.length = b.length) && (a.zip b).all fun pr => decide (pr.1.edge = pr.2.edge)

/-- Lines 438–453: collapse duplicate branches, summing scores. -/
def addBranch (branches : List PathWithScore) (nb : PathWithScore) :
    List PathWithScore :=
  let dup := branches.any fun br => sameEdgeSeq nb.path br.path
  let branches' := branches.map fun br =>
    if sameEdgeSeq nb.path br.path then { br with score := br.score + nb.score } else br
  if dup then branches' else branches' ++ [nb]

/-- The per-bubble diagnostic record the pass emits to the observability sink
(lines 457–488): the start edge, the two boundary edges, the surviving groups
and the trimmed branches. -/
structure BubbleDiag where
  startEdge : EdgeId
  boundaryStart : EdgeId
  boundaryEnd : EdgeId
  groups : List PathWithScore
  branches : List PathWithScore
deriving DecidableEq

/-- Lines 278–488: processing of one start path.  Returns the emitted
diagnostic, or `none` where the C++ `continue`s. -/
def processStartPath (g : RepeatGraph) (loopedEdges : List EdgeId)
    (alns : List GraphAlignment) (startPath : UnbranchingPath) :
    Option BubbleDiag :=
  if !startPath.id.strand then none
  else if (g.node (g.pathNodeRight startPath)).outEdges.length < 2 then none
  else
    let startEdge := startPath.back
    if loopedEdges.contains startEdge then none
    else
      let outPaths := outPathsFor alns startEdge
      if outPaths.isEmpty then none
      else
        let minScore := max 2 (outPaths.length / 10)
        let pathGroups := (groupOutPaths (sortBySpanDesc outPaths)).filter
          fun gp => decide (minScore ≤ gp.score)
        if pathGroups.length < 2 then none
        else
          match pathGroups with
          | [] => none
          | ref :: _ =>
            let conv := convergenceB loopedEdges pathGroups
            let s := findBubbleStart conv pathGroups
            match findBubbleEnd conv ref.path s with
            | none => none
            | some eIdx =>
              match ref.path.get? s, ref.path.get? eIdx with
              | some sEA, some eEA =>
                let branches := pathGroups.foldl
                  (fun acc gp => addBranch acc ⟨trimGroup gp.path sEA.edge eEA.edge, gp.score⟩)
                  []
                if branches.length < 2 then none
                else some ⟨startEdge, sEA.edge, eEA.edge, pathGroups, branches⟩
              | _, _ => none

/-- Lines 269–276: all edges lying on some looped unbranching path. -/
def loopedEdgesOf (g : RepeatGraph) (ups : List UnbranchingPath) : List EdgeId :=
  ups.foldl (fun acc p => if g.pathIsLooped p then acc ++ p.path else acc) []

/-- `HaplotypeResolver::findComplexHaplotypes` (lines 250–491): purely
diagnostic — it reads the graph, the unbranching paths and the alignments,
emits the discovered bubbles, performs no mutation and returns 0. -/
def findComplexHaplotypes (g : RepeatGraph) (ups : List UnbranchingPath)
    (alns : List GraphAlignment) : RepeatGraph × Nat × List BubbleDiag :=
  let looped := loopedEdgesOf g ups
  let diags := ups.foldl
    (fun acc sp =>
      match processStartPath g looped alns sp with
      | some d => acc ++ [d]
      | none => acc)
    []
  (g, 0, diags)

/-! ## Specification-level predicates

The claim about the first-occurrence trim is compared against a second
definition written from the spec's words. -/

/-- Modelled from the spec: the claim's wording of the trim step — the
sub-path between the FIRST occurrence of the start boundary edge and the
FIRST occurrence of the end boundary edge, inclusive. -/
def trimGroupFirstSpec (p : GraphAlignment) (sE eE : EdgeId) : GraphAlignment :=
  let gs := (p.findIdx? fun r => decide (r.edge = sE)).getD 0
  let ge := (p.findIdx? fun r => decide (r.edge = eE)).getD 0
  (p.take (ge + 1)).drop gs

/-- Index of the last occurrence of edge `e` in `p` (0 if absent): the first
hit when scanning the indexed list from the right. -/
def lastOccIdx (p : GraphAlignment) (e : EdgeId) : Nat :=
  match p.enum.reverse.find? fun ie => decide (ie.2.edge = e) with
  | some ie => ie.1
  | none => 0

/-! ## Well-formedness and contract predicates (decidable) -/

/-- All paths are non-empty and reference existing edges. -/
def upsInBounds (g : RepeatGraph) (ups : List UnbranchingPath) : Bool :=
  ups.all fun p => !p.path.isEmpty && p.path.all fun e => decide (e < g.edges.length)

/-- The twin map is an involution preserving the edge range (spec §3:
`complement(complement(e)) = e`). -/
def complWFb (g : RepeatGraph) : Bool :=
  (List.range g.edges.length).all fun i =>
    decide (g.complementEdge i < g.edges.length) &&
      decide (g.complementEdge (g.complementEdge i) = i)

/-- Spec §8 invariant: every edge agrees with its twin on `altHaplotype` and
`meanCoverage`. -/
def twinSyncB (g : RepeatGraph) : Bool :=
  (List.range g.edges.length).all fun i =>
    decide ((g.edge (g.complementEdge i)).altHaplotype = (g.edge i).altHaplotype) &&
      decide ((g.edge (g.complementEdge i)).meanCoverage = (g.edge i).meanCoverage)

/-- Every edge whose `altHaplotype` differs from its value in `g0` agrees with
its twin in `g`. -/
def altMutB (g0 g : RepeatGraph) : Bool :=
  (List.range g0.edges.length).all fun i =>
    decide ((g.edge i).altHaplotype ≠ (g0.edge i).altHaplotype →
      (g.edge i).altHaplotype = (g.edge (g0.complementEdge i)).altHaplotype)

/-- Pairwise check along a list (each element against all later ones). -/
def pairwiseB (r : α → α → Bool) : List α → Bool
  | [] => true
  | x :: xs => xs.all (r x) && pairwiseB r xs

/-- Distinct paths never share an edge (each edge lies on one maximal
unbranching path). -/
def pathsDisjointB (ups : List UnbranchingPath) : Bool :=
  pairwiseB (fun p q => decide (p = q) || p.path.all fun e => !q.path.contains e) ups

/-- Consecutive edges of a path connect target-to-source. -/
def pathConnectedB (g : RepeatGraph) (p : UnbranchingPath) : Bool :=
  (p.path.zip p.path.tail).all fun pr =>
    decide ((g.edge pr.1).nodeRight = (g.edge pr.2).nodeLeft)

/-- Interior nodes of a path have in-degree 1 and out-degree 1 (spec §4.1). -/
def pathInteriorB (g : RepeatGraph) (p : UnbranchingPath) : Bool :=
  (p.path.zip p.path.tail).all fun pr =>
    decide ((g.node ((g.edge pr.1).nodeRight)).inEdges.length = 1 ∧
            (g.node ((g.edge pr.1).nodeRight)).outEdges.length = 1)

/-- A maximal path cannot be extended: a boundary node with in/out degree 1 is
only allowed when the path closes into a loop. -/
def pathMaximalB (g : RepeatGraph) (p : UnbranchingPath) : Bool :=
  (!(decide ((g.node (g.pathNodeLeft p)).inEdges.length = 1 ∧
             (g.node (g.pathNodeLeft p)).outEdges.length = 1)) || g.pathIsLooped p) &&
  (!(decide ((g.node (g.pathNodeRight p)).inEdges.length = 1 ∧
             (g.node (g.pathNodeRight p)).outEdges.length = 1)) || g.pathIsLooped p)

/-- The stored path attributes are the derived ones of spec §3: `id` is the
signed id of the first edge, `length` the sum of edge lengths, `meanCoverage`
the length-weighted mean of edge coverages. -/
def pathFieldsB (g : RepeatGraph) (p : UnbranchingPath) : Bool :=
  decide (p.id = (g.edge p.front).edgeId) &&
  decide (p.length = (p.path.map fun e => (g.edge e).edgeLen).sum) &&
  decide (p.meanCoverage * (p.length : ℚ) =
    (p.path.map fun e => ((g.edge e).edgeLen : ℚ) * (g.edge e).meanCoverage).sum)

/-- Every edge of the graph lies on some returned path. -/
def pathsCoverB (g : RepeatGraph) (ups : List UnbranchingPath) : Bool :=
  (List.range g.edges.length).all fun i => ups.any fun p => p.path.contains i

/-- Each pair of strand-twin paths appears (spec §4.1). -/
def twinAppearsB (g : RepeatGraph) (ups : List UnbranchingPath) : Bool :=
  ups.all fun p => ups.any fun q =>
    decide (q.path = p.path.reverse.map g.complementEdge)

/-- Modelled from the spec: the contract of the collaborator
`GraphProcessor::getUnbranchingPaths` (§4.1), which is not part of the source
tree — all maximal unbranching paths, including singleton edges, with both
strand twins present and the stored attributes of §3. -/
def extractorContractB (g : RepeatGraph) (ups : List UnbranchingPath) : Bool :=
  upsInBounds g ups &&
  ups.all (fun p => pathConnectedB g p && pathInteriorB g p &&
    pathMaximalB g p && pathFieldsB g p) &&
  pathsCoverB g ups && pathsDisjointB ups && twinAppearsB g ups

/-- Graph well-formedness (spec §3 invariants): adjacency lists reference
existing edges whose endpoint is the listing node, contain no duplicates, and
edge ids identify edges. -/
def coherentAdjB (g : RepeatGraph) : Bool :=
  ((List.range g.nodes.length).all fun v =>
    ((g.node v).inEdges.all fun e =>
      decide (e < g.edges.length) && decide ((g.edge e).nodeRight = v)) &&
    ((g.node v).outEdges.all fun e =>
      decide (e < g.edges.length) && decide ((g.edge e).nodeLeft = v)) &&
    decide (g.node v).inEdges.Nodup && decide (g.node v).outEdges.Nodup) &&
  pairwiseB (fun i j => decide ((g.edge i).edgeId ≠ (g.edge j).edgeId))
    (List.range g.edges.length)

/-- An edge with its `altHaplotype` flag cleared — used to state that a pass
changed nothing but that flag. -/
def stripAlt (e : GraphEdge) : GraphEdge := { e with altHaplotype := false }

/-! ## Concrete instances (spec §8 end-to-end scenarios and variants)

A simple bulge `E → (A | B) → X` together with its reverse-complement mirror.
Forward nodes are 0–3, mirrored nodes 4–7; the twin of edge `i` is `i ^^^ 1`.
The maker is parameterised by the coverages, by an initial `altHaplotype` flag
on branch A, and by the coverage of B's twin (normally equal to B's). -/

def mkBulgeGraph (covE covA covB covX covBbar : ℚ) (altA : Bool) : RepeatGraph where
  edges :=
    [⟨⟨1, true⟩, 0, 1, 10, covE, false, false⟩,
     ⟨⟨1, false⟩, 5, 4, 10, covE, false, false⟩,
     ⟨⟨2, true⟩, 1, 2, 5, covA, altA, false⟩,
     ⟨⟨2, false⟩, 6, 5, 5, covA, altA, false⟩,
     ⟨⟨3, true⟩, 1, 2, 5, covB, false, false⟩,
     ⟨⟨3, false⟩, 6, 5, 5, covBbar, false, false⟩,
     ⟨⟨4, true⟩, 2, 3, 10, covX, false, false⟩,
     ⟨⟨4, false⟩, 7, 6, 10, covX, false, false⟩]
  nodes :=
    [⟨[], [0]⟩, ⟨[0], [2, 4]⟩, ⟨[2, 4], [6]⟩, ⟨[6], []⟩,
     ⟨[1], []⟩, ⟨[3, 5], [1]⟩, ⟨[7], [3, 5]⟩, ⟨[], [7]⟩]
  complementEdge := fun i => i ^^^ 1

def mkBulgeUps (covE covA covB covX covBbar : ℚ) : List UnbranchingPath :=
  [⟨⟨1, true⟩, [0], 10, covE⟩, ⟨⟨2, true⟩, [2], 5, covA⟩,
   ⟨⟨3, true⟩, [4], 5, covB⟩, ⟨⟨4, true⟩, [6], 10, covX⟩,
   ⟨⟨1, false⟩, [1], 10, covE⟩, ⟨⟨2, false⟩, [3], 5, covA⟩,
   ⟨⟨3, false⟩, [5], 5, covBbar⟩, ⟨⟨4, false⟩, [7], 10, covX⟩]

/-- Scenario 1 of spec §8: `E(30) → (A(10) | B(20)) → X(30)`. -/
def gBulge : RepeatGraph := mkBulgeGraph 30 10 20 30 20 false

def upsBulge : List UnbranchingPath := mkBulgeUps 30 10 20 30 20

/-- Scenario 3 of spec §8 (coverage-rejected bulge):
`E(10) → (A(20) | B(20)) → X(10)`. -/
def gBulgeRej : RepeatGraph := mkBulgeGraph 10 20 20 10 20 false

def upsBulgeRej : List UnbranchingPath := mkBulgeUps 10 20 20 10 20

/-- Scenario 1 with branch A already flagged as `altHaplotype`. -/
def gBulgeAltA : RepeatGraph := mkBulgeGraph 30 10 20 30 20 true

/-- Scenario 1 with twin coverages out of sync: B's twin carries coverage 21
instead of 20. -/
def gBulgeTwinErr : RepeatGraph := mkBulgeGraph 30 10 20 30 21 false

def upsBulgeTwinErr : List UnbranchingPath := mkBulgeUps 30 10 20 30 21

/-- Scenarios 5/6 of spec §8: entrance(20) → N → exit(20) with a self-loop of
coverage `covL` at N, plus the reverse-complement mirror. -/
def mkLoopGraph (covL : ℚ) : RepeatGraph where
  edges :=
    [⟨⟨1, true⟩, 0, 1, 10, 20, false, false⟩,
     ⟨⟨1, false⟩, 4, 3, 10, 20, false, false⟩,
     ⟨⟨2, true⟩, 1, 1, 5, covL, false, false⟩,
     ⟨⟨2, false⟩, 4, 4, 5, covL, false, false⟩,
     ⟨⟨3, true⟩, 1, 2, 10, 20, false, false⟩,
     ⟨⟨3, false⟩, 5, 4, 10, 20, false, false⟩]
  nodes :=
    [⟨[], [0]⟩, ⟨[0, 2], [2, 4]⟩, ⟨[4], []⟩,
     ⟨[1], []⟩, ⟨[5, 3], [3, 1]⟩, ⟨[], [5]⟩]
  complementEdge := fun i => i ^^^ 1

def mkLoopUps (covL : ℚ) : List UnbranchingPath :=
  [⟨⟨1, true⟩, [0], 10, 20⟩, ⟨⟨2, true⟩, [2], 5, covL⟩,
   ⟨⟨3, true⟩, [4], 10, 20⟩, ⟨⟨1, false⟩, [1], 10, 20⟩,
   ⟨⟨2, false⟩, [3], 5, covL⟩, ⟨⟨3, false⟩, [5], 10, 20⟩]

/-- Scenario 5 (loop unroll): loop coverage 15 ≥ (20+20)/4. -/
def gLoopU : RepeatGraph := mkLoopGraph 15

def upsLoopU : List UnbranchingPath := mkLoopUps 15

/-- Scenario 6 (loop remove): loop coverage 5 < (20+20)/4. -/
def gLoopR : RepeatGraph := mkLoopGraph 5

def upsLoopR : List UnbranchingPath := mkLoopUps 5

/-- A nested-bulge graph: `E0 → (p·[a|b]·t | q) → X0`, mirrored.  Collapsing
the inner bubble `(a|b)` merges `p,b,t` into one unbranching path, which then
forms a new outer bubble against `q`. -/
def gC7 : RepeatGraph where
  edges :=
    [⟨⟨1, true⟩, 0, 1, 50, 6, false, false⟩,
     ⟨⟨1, false⟩, 7, 6, 50, 6, false, false⟩,
     ⟨⟨2, true⟩, 1, 2, 10, 3, false, false⟩,
     ⟨⟨2, false⟩, 8, 7, 10, 3, false, false⟩,
     ⟨⟨3, true⟩, 2, 3, 1, 1, false, false⟩,
     ⟨⟨3, false⟩, 9, 8, 1, 1, false, false⟩,
     ⟨⟨4, true⟩, 2, 3, 1, 2, false, false⟩,
     ⟨⟨4, false⟩, 9, 8, 1, 2, false, false⟩,
     ⟨⟨5, true⟩, 3, 4, 10, 3, false, false⟩,
     ⟨⟨5, false⟩, 10, 9, 10, 3, false, false⟩,
     ⟨⟨6, true⟩, 1, 4, 21, 3, false, false⟩,
     ⟨⟨6, false⟩, 10, 7, 21, 3, false, false⟩,
     ⟨⟨7, true⟩, 4, 5, 50, 6, false, false⟩,
     ⟨⟨7, false⟩, 11, 10, 50, 6, false, false⟩]
  nodes :=
    [⟨[], [0]⟩, ⟨[0], [2, 10]⟩, ⟨[2], [4, 6]⟩, ⟨[4, 6], [8]⟩,
     ⟨[8, 10], [12]⟩, ⟨[12], []⟩, ⟨[1], []⟩, ⟨[3, 11], [1]⟩,
     ⟨[5, 7], [3]⟩, ⟨[9], [5, 7]⟩, ⟨[13], [9, 11]⟩, ⟨[], [13]⟩]
  complementEdge := fun i => i ^^^ 1

/-- The unbranching paths of `gC7`. -/
def ups0C7 : List UnbranchingPath :=
  [⟨⟨1, true⟩, [0], 50, 6⟩, ⟨⟨2, true⟩, [2], 10, 3⟩,
   ⟨⟨3, true⟩, [4], 1, 1⟩, ⟨⟨4, true⟩, [6], 1, 2⟩,
   ⟨⟨5, true⟩, [8], 10, 3⟩, ⟨⟨6, true⟩, [10], 21, 3⟩,
   ⟨⟨7, true⟩, [12], 50, 6⟩, ⟨⟨1, false⟩, [1], 50, 6⟩,
   ⟨⟨2, false⟩, [3], 10, 3⟩, ⟨⟨3, false⟩, [5], 1, 1⟩,
   ⟨⟨4, false⟩, [7], 1, 2⟩, ⟨⟨5, false⟩, [9], 10, 3⟩,
   ⟨⟨6, false⟩, [11], 21, 3⟩, ⟨⟨7, false⟩, [13], 50, 6⟩]

/-- The unbranching paths of the graph produced by one collapse-mode bulge pass
on `gC7`: the inner branch `a` (edges 4/5) is detached to fresh nodes, and
`p,b,t` (edges 2,6,8) merge into a single path. -/
def ups1C7 : List UnbranchingPath :=
  [⟨⟨1, true⟩, [0], 50, 6⟩, ⟨⟨2, true⟩, [2, 6, 8], 21, 3⟩,
   ⟨⟨6, true⟩, [10], 21, 3⟩, ⟨⟨7, true⟩, [12], 50, 6⟩,
   ⟨⟨3, true⟩, [4], 1, 1⟩, ⟨⟨1, false⟩, [1], 50, 6⟩,
   ⟨⟨5, false⟩, [9, 7, 3], 21, 3⟩, ⟨⟨6, false⟩, [11], 21, 3⟩,
   ⟨⟨7, false⟩, [13], 50, 6⟩, ⟨⟨3, false⟩, [5], 1, 1⟩]

/-- A graph whose start edge `s` (edge 0) reoccurs along read paths: a cycle
`s · x · c` back to `s`, with a parallel branch `y`, mirrored. -/
def gC8 : RepeatGraph where
  edges :=
    [⟨⟨1, true⟩, 0, 1, 100, 30, false, false⟩,
     ⟨⟨1, false⟩, 4, 3, 100, 30, false, false⟩,
     ⟨⟨2, true⟩, 1, 2, 50, 15, false, false⟩,
     ⟨⟨2, false⟩, 5, 4, 50, 15, false, false⟩,
     ⟨⟨3, true⟩, 1, 2, 50, 15, false, false⟩,
     ⟨⟨3, false⟩, 5, 4, 50, 15, false, false⟩,
     ⟨⟨4, true⟩, 2, 0, 100, 30, false, false⟩,
     ⟨⟨4, false⟩, 3, 5, 100, 30, false, false⟩]
  nodes :=
    [⟨[6], [0]⟩, ⟨[0], [2, 4]⟩, ⟨[2, 4], [6]⟩,
     ⟨[1], [7]⟩, ⟨[3, 5], [1]⟩, ⟨[7], [3, 5]⟩]
  complementEdge := fun i => i ^^^ 1

def upsC8 : List UnbranchingPath :=
  [⟨⟨4, true⟩, [6, 0], 200, 30⟩, ⟨⟨2, true⟩, [2], 50, 15⟩,
   ⟨⟨3, true⟩, [4], 50, 15⟩, ⟨⟨1, false⟩, [1, 7], 200, 30⟩,
   ⟨⟨2, false⟩, [3], 50, 15⟩, ⟨⟨3, false⟩, [5], 50, 15⟩]

/-- Four read alignments: two follow `s·x·c·s` (looping back through `s`),
two follow `s·y·c`. -/
def alnsC8 : List GraphAlignment :=
  [[⟨0, 100⟩, ⟨2, 150⟩, ⟨6, 250⟩, ⟨0, 350⟩],
   [⟨0, 100⟩, ⟨2, 150⟩, ⟨6, 250⟩, ⟨0, 350⟩],
   [⟨0, 100⟩, ⟨4, 150⟩, ⟨6, 250⟩],
   [⟨0, 100⟩, ⟨4, 150⟩, ⟨6, 250⟩]]

/-! ## Relations used by the invariance proofs -/

/-- The twin map is an involution on the first `n` edge indices. -/
def CWF (c : EdgeId → EdgeId) (n : Nat) : Prop :=
  ∀ i, i < n → c i < n ∧ c (c i) = i

/-- Propositional form of `twinSyncB`: every edge agrees with its twin on
`altHaplotype` and `meanCoverage`. -/
def Paired (g : RepeatGraph) : Prop :=
  ∀ i, i < g.edges.length →
    (g.edge (g.complementEdge i)).altHaplotype = (g.edge i).altHaplotype ∧
    (g.edge (g.complementEdge i)).meanCoverage = (g.edge i).meanCoverage

/-- Propositional form of `altMutB`: any edge whose `altHaplotype` differs
from its value in `g0` agrees with its twin in `g`. -/
def AltMut (g0 g : RepeatGraph) : Prop :=
  ∀ i, i < g0.edges.length →
    (g.edge i).altHaplotype ≠ (g0.edge i).altHaplotype →
    (g.edge i).altHaplotype = (g.edge (g0.complementEdge i)).altHaplotype

/-- `g'` differs from `g` at most in `altHaplotype` flags of edges. -/
def AltOnly (g g' : RepeatGraph) : Prop :=
  g'.nodes = g.nodes ∧ g'.complementEdge = g.complementEdge ∧
  g'.edges.length = g.edges.length ∧ ∀ i, stripAlt (g'.edge i) = stripAlt (g.edge i)

/-- `g'` agrees with `g` on every edge's `altHaplotype` and `meanCoverage`
(adjacency may differ); the twin map and edge count also agree. -/
def AltCovEq (g g' : RepeatGraph) : Prop :=
  g'.complementEdge = g.complementEdge ∧ g'.edges.length = g.edges.length ∧
  ∀ i, (g'.edge i).altHaplotype = (g.edge i).altHaplotype ∧
    (g'.edge i).meanCoverage = (g.edge i).meanCoverage

/-- `g'` has the same adjacency structure as `g`: identical node lists, edge
count, twin map and edge endpoints. -/
def AdjEq (g g' : RepeatGraph) : Prop :=
  g'.nodes = g.nodes ∧ g'.complementEdge = g.complementEdge ∧
  g'.edges.length = g.edges.length ∧
  ∀ i, (g'.edge i).nodeLeft = (g.edge i).nodeLeft ∧
    (g'.edge i).nodeRight = (g.edge i).nodeRight

/-! # Theorems

## Generic list lemmas -/

theorem listGetD_set {α : Type} (l : List α) (i j : Nat) (a d : α) :
    (l.set i a).getD j d = if i = j ∧ j < l.length then a else l.getD j d := by
  induction l generalizing i j with
  | nil => simp
  | cons x xs ih =>
    cases i with
    | zero =>
      cases j with
      | zero => simp
      | succ j => simp
    | succ i =>
      cases j with
      | zero => simp
      | succ j =>
        have hiff : (i + 1 = j + 1 ∧ j + 1 < xs.length + 1) ↔
            (i = j ∧ j < xs.length) := by omega
        simp only [List.set_cons_succ, List.getD_cons_succ, List.length_cons, hiff]
        exact ih i j

theorem listGetD_out_of_bounds {α : Type} (l : List α) (j : Nat) (d : α)
    (h : ¬ j < l.length) : l.getD j d = d := by
  unfold List.getD
  rw [List.get?_eq_none.mpr (by omega)]
  rfl

/-! ## Projection lemmas for the graph primitives -/

theorem edge_setEdge (g : RepeatGraph) (i : EdgeId) (F : GraphEdge → GraphEdge)
    (j : EdgeId) :
    (g.setEdge i F).edge j =
      if i = j ∧ j < g.edges.length then F (g.edge j) else g.edge j := by
  show (g.edges.set i (F (g.edge i))).getD j defaultEdge = _
  rw [listGetD_set]
  by_cases h : i = j ∧ j < g.edges.length
  · rw [if_pos h, if_pos h, h.1]
  · rw [if_neg h, if_neg h]; rfl

theorem length_setEdge (g : RepeatGraph) (i : EdgeId) (F : GraphEdge → GraphEdge) :
    (g.setEdge i F).edges.length = g.edges.length :=
  List.length_set g.edges i (F (g.edge i))

theorem nodes_setEdge (g : RepeatGraph) (i : EdgeId) (F : GraphEdge → GraphEdge) :
    (g.setEdge i F).nodes = g.nodes := rfl

theorem compl_setEdge (g : RepeatGraph) (i : EdgeId) (F : GraphEdge → GraphEdge) :
    (g.setEdge i F).complementEdge = g.complementEdge := rfl

theorem node_setEdge (g : RepeatGraph) (i : EdgeId) (F : GraphEdge → GraphEdge)
    (v : NodeId) : (g.setEdge i F).node v = g.node v := rfl

theorem edge_setNode (g : RepeatGraph) (v : NodeId) (f : GraphNode → GraphNode)
    (j : EdgeId) : (g.setNode v f).edge j = g.edge j := rfl

theorem edges_setNode (g : RepeatGraph) (v : NodeId) (f : GraphNode → GraphNode) :
    (g.setNode v f).edges = g.edges := rfl

theorem compl_setNode (g : RepeatGraph) (v : NodeId) (f : GraphNode → GraphNode) :
    (g.setNode v f).complementEdge = g.complementEdge := rfl

theorem edge_addNode (g : RepeatGraph) (j : EdgeId) : g.addNode.edge j = g.edge j := rfl

theorem edges_addNode (g : RepeatGraph) : g.addNode.edges = g.edges := rfl

theorem compl_addNode (g : RepeatGraph) : g.addNode.complementEdge = g.complementEdge := rfl

theorem compl_pairUpdate (g : RepeatGraph) (e : EdgeId) (F : GraphEdge → GraphEdge) :
    (pairUpdate g e F).complementEdge = g.complementEdge := rfl

theorem nodes_pairUpdate (g : RepeatGraph) (e : EdgeId) (F : GraphEdge → GraphEdge) :
    (pairUpdate g e F).nodes = g.nodes := rfl

theorem length_pairUpdate (g : RepeatGraph) (e : EdgeId) (F : GraphEdge → GraphEdge) :
    (pairUpdate g e F).edges.length = g.edges.length := by
  unfold pairUpdate
  rw [length_setEdge, length_setEdge]

theorem edge_pairUpdate (g : RepeatGraph) (e : EdgeId) (F : GraphEdge → GraphEdge)
    (j : EdgeId) :
    (pairUpdate g e F).edge j =
      if g.complementEdge e = j ∧ j < g.edges.length then
        (if e = j then F (F (g.edge j)) else F (g.edge j))
      else if e = j ∧ j < g.edges.length then F (g.edge j) else g.edge j := by
  unfold pairUpdate
  simp only [edge_setEdge, length_setEdge, compl_setEdge]
  by_cases h1 : g.complementEdge e = j ∧ j < g.edges.length
  · rw [if_pos h1, if_pos h1]
    by_cases h2 : e = j ∧ j < g.edges.length
    · rw [if_pos h2, if_pos h2.1]
    · have h2' : ¬ e = j := fun hc => h2 ⟨hc, h1.2⟩
      rw [if_neg h2, if_neg h2']
  · rw [if_neg h1, if_neg h1]

theorem edge_pairUpdate_of_ne (g : RepeatGraph) (e : EdgeId) (F : GraphEdge → GraphEdge)
    (j : EdgeId) (h1 : j ≠ e) (h2 : j ≠ g.complementEdge e) :
    (pairUpdate g e F).edge j = g.edge j := by
  rw [edge_pairUpdate, if_neg (fun hc => h2 hc.1.symm), if_neg (fun hc => h1 hc.1.symm)]

theorem edge_pairUpdate_self (g : RepeatGraph) (e : EdgeId) (F : GraphEdge → GraphEdge)
    (he : e < g.edges.length) (h : g.complementEdge e = e) :
    (pairUpdate g e F).edge e = F (F (g.edge e)) := by
  rw [edge_pairUpdate, if_pos ⟨h, he⟩, if_pos rfl]

theorem edge_pairUpdate_fst (g : RepeatGraph) (e : EdgeId) (F : GraphEdge → GraphEdge)
    (he : e < g.edges.length) (h : g.complementEdge e ≠ e) :
    (pairUpdate g e F).edge e = F (g.edge e) := by
  rw [edge_pairUpdate, if_neg (fun hc => h hc.1), if_pos ⟨rfl, he⟩]

theorem edge_pairUpdate_snd (g : RepeatGraph) (e : EdgeId) (F : GraphEdge → GraphEdge)
    (hce : g.complementEdge e < g.edges.length) (h : g.complementEdge e ≠ e) :
    (pairUpdate g e F).edge (g.complementEdge e) = F (g.edge (g.complementEdge e)) := by
  rw [edge_pairUpdate, if_pos ⟨rfl, hce⟩, if_neg (fun hc => h hc.symm)]

/-- A paired field update at an in-range edge preserves the twin-sync
invariant, provided the update map sends twin-agreeing edges to twin-agreeing
edges. -/
theorem paired_pairUpdate (g : RepeatGraph) (e : EdgeId) (F : GraphEdge → GraphEdge)
    (hWF : CWF g.complementEdge g.edges.length) (he : e < g.edges.length)
    (hF : ∀ x y : GraphEdge, x.altHaplotype = y.altHaplotype →
      x.meanCoverage = y.meanCoverage →
      (F x).altHaplotype = (F y).altHaplotype ∧ (F x).meanCoverage = (F y).meanCoverage)
    (hp : Paired g) : Paired (pairUpdate g e F) := by
  intro i hi
  rw [length_pairUpdate] at hi
  rw [compl_pairUpdate]
  obtain ⟨hce, hcce⟩ := hWF e he
  obtain ⟨hci, hcci⟩ := hWF i hi
  by_cases hie : i = e
  · subst hie
    by_cases hself : g.complementEdge i = i
    · rw [hself]
      exact ⟨rfl, rfl⟩
    · rw [edge_pairUpdate_snd g i F hce hself,
        edge_pairUpdate_fst g i F hi hself]
      exact hF _ _ (hp i hi).1 (hp i hi).2
  · by_cases hice : i = g.complementEdge e
    · have hcie : g.complementEdge i = e := by rw [hice, hcce]
      rw [hcie]
      have hself' : g.complementEdge e ≠ e := fun hc => hie (hice.trans hc)
      rw [edge_pairUpdate_fst g e F he hself']
      rw [hice, edge_pairUpdate_snd g e F hce hself']
      exact hF _ _ (hp e he).1.symm (hp e he).2.symm
    · have h1 : g.complementEdge i ≠ e := fun hc => by
        rw [← hc, hcci] at hice; exact hice rfl
      have h2 : g.complementEdge i ≠ g.complementEdge e := fun hc => by
        have : i = e := by
          have := congrArg g.complementEdge hc
          rwa [hcci, hcce] at this
        exact hie this
      rw [edge_pairUpdate_of_ne g e F _ h1 h2,
        edge_pairUpdate_of_ne g e F i hie hice]
      exact hp i hi

theorem length_markEdgePairAlt (g : RepeatGraph) (e : EdgeId) (v : Bool) :
    (markEdgePairAlt g e v).edges.length = g.edges.length :=
  length_pairUpdate g e _

theorem compl_markEdgePairAlt (g : RepeatGraph) (e : EdgeId) (v : Bool) :
    (markEdgePairAlt g e v).complementEdge = g.complementEdge := rfl

/-- Transport `AltMut` along a pointwise `altHaplotype`-preserving change. -/
theorem altMut_congr (g0 g g' : RepeatGraph)
    (h : ∀ i, (g'.edge i).altHaplotype = (g.edge i).altHaplotype) :
    AltMut g0 g → AltMut g0 g' := by
  intro hm i hi hne
  rw [h i] at hne
  rw [h i, h (g0.complementEdge i)]
  exact hm i hi hne

/-- A paired constant `altHaplotype` write preserves the `AltMut` relation. -/
theorem altMut_pairUpdate_alt (g0 g : RepeatGraph) (e : EdgeId) (v : Bool)
    (hWF : CWF g0.complementEdge g0.edges.length)
    (hcompl : g.complementEdge = g0.complementEdge)
    (hlen : g.edges.length = g0.edges.length)
    (he : e < g.edges.length) :
    AltMut g0 g → AltMut g0 (pairUpdate g e fun x => { x with altHaplotype := v }) := by
  intro hm
  have hce : g.complementEdge e < g.edges.length := by
    rw [hcompl, hlen]; exact (hWF e (by rwa [hlen] at he)).1
  have hcce : g.complementEdge (g.complementEdge e) = e := by
    rw [hcompl]; exact (hWF e (by rwa [hlen] at he)).2
  have haltv : ∀ j, (j = e ∨ j = g.complementEdge e) →
      ((pairUpdate g e fun x => { x with altHaplotype := v }).edge j).altHaplotype = v := by
    intro j hj
    by_cases hself : g.complementEdge e = e
    · have hje : j = e := by rcases hj with h | h; exact h; rw [h, hself]
      rw [hje, edge_pairUpdate_self g e _ he hself]
    · rcases hj with h | h
      · rw [h, edge_pairUpdate_fst g e _ he hself]
      · rw [h, edge_pairUpdate_snd g e _ hce hself]
  intro i hi
  obtain ⟨hci0, hcci0⟩ := hWF i hi
  by_cases hmem : i = e ∨ i = g.complementEdge e
  · intro _
    have hciMem : g0.complementEdge i = e ∨ g0.complementEdge i = g.complementEdge e := by
      rcases hmem with h | h
      · right; rw [h, hcompl]
      · left; rw [h, ← hcompl, hcce]
    rw [haltv i hmem, haltv _ hciMem]
  · push_neg at hmem
    have h1 : g0.complementEdge i ≠ e := by
      intro hc
      apply hmem.2
      rw [← hcci0, hc, hcompl]
    have h2 : g0.complementEdge i ≠ g.complementEdge e := by
      intro hc
      apply hmem.1
      rw [hcompl] at hc
      have := congrArg g0.complementEdge hc
      rw [hcci0] at this
      rw [this, ← hcompl, hcce]
    have hrwi := edge_pairUpdate_of_ne g e
      (fun x => { x with altHaplotype := v }) i hmem.1 hmem.2
    have hrwc := edge_pairUpdate_of_ne g e
      (fun x => { x with altHaplotype := v }) (g0.complementEdge i)
      h1 (by rw [hcompl]; exact fun hc => h2 (by rw [hc, ← hcompl]))
    intro hne
    rw [hrwi] at hne
    rw [hrwi, hrwc]
    exact hm i hi hne

theorem altOnly_refl (g : RepeatGraph) : AltOnly g g := ⟨rfl, rfl, rfl, fun _ => rfl⟩

theorem altOnly_trans {g g' g'' : RepeatGraph} :
    AltOnly g g' → AltOnly g' g'' → AltOnly g g'' := by
  rintro ⟨h1, h2, h3, h4⟩ ⟨h1', h2', h3', h4'⟩
  exact ⟨h1'.trans h1, h2'.trans h2, h3'.trans h3, fun i => (h4' i).trans (h4 i)⟩

theorem altOnly_markEdgePairAlt (g : RepeatGraph) (e : EdgeId) (v : Bool) :
    AltOnly g (markEdgePairAlt g e v) := by
  refine ⟨rfl, rfl, length_markEdgePairAlt g e v, fun i => ?_⟩
  unfold markEdgePairAlt
  rw [edge_pairUpdate]
  split_ifs with h1 h2
  · rfl
  · rfl
  · rfl
  · rfl

theorem altOnly_markPathAlt (g : RepeatGraph) (p : UnbranchingPath) :
    AltOnly g (markPathAlt g p) := by
  unfold markPathAlt
  generalize p.path = l
  induction l generalizing g with
  | nil => exact altOnly_refl g
  | cons e l ih =>
    rw [List.foldl_cons]
    exact altOnly_trans (altOnly_markEdgePairAlt g e true) (ih _)

theorem adjEq_refl (g : RepeatGraph) : AdjEq g g := ⟨rfl, rfl, rfl, fun _ => ⟨rfl, rfl⟩⟩

theorem adjEq_trans {g g' g'' : RepeatGraph} :
    AdjEq g g' → AdjEq g' g'' → AdjEq g g'' := by
  rintro ⟨h1, h2, h3, h4⟩ ⟨h1', h2', h3', h4'⟩
  exact ⟨h1'.trans h1, h2'.trans h2, h3'.trans h3,
    fun i => ⟨(h4' i).1.trans (h4 i).1, (h4' i).2.trans (h4 i).2⟩⟩

theorem adjEq_of_altOnly {g g' : RepeatGraph} (h : AltOnly g g') : AdjEq g g' := by
  obtain ⟨h1, h2, h3, h4⟩ := h
  refine ⟨h1, h2, h3, fun i => ⟨?_, ?_⟩⟩
  · have := congrArg GraphEdge.nodeLeft (h4 i)
    exact this
  · have := congrArg GraphEdge.nodeRight (h4 i)
    exact this

theorem adjEq_pairUpdate (g : RepeatGraph) (e : EdgeId) (F : GraphEdge → GraphEdge)
    (hF : ∀ x, (F x).nodeLeft = x.nodeLeft ∧ (F x).nodeRight = x.nodeRight) :
    AdjEq g (pairUpdate g e F) := by
  refine ⟨rfl, rfl, length_pairUpdate g e F, fun i => ?_⟩
  rw [edge_pairUpdate]
  split_ifs with h1 h2
  · exact ⟨((hF _).1.trans (hF _).1), ((hF _).2.trans (hF _).2)⟩
  · exact hF _
  · exact hF _
  · exact ⟨rfl, rfl⟩

theorem adjEq_addCovClearAlt (g : RepeatGraph) (p : UnbranchingPath) (c : ℚ) :
    AdjEq g (addCovClearAlt g p c) := by
  unfold addCovClearAlt
  generalize p.path = l
  induction l generalizing g with
  | nil => exact adjEq_refl g
  | cons e l ih =>
    rw [List.foldl_cons]
    refine adjEq_trans (adjEq_trans (adjEq_pairUpdate g e _ ?_)
      (adjEq_pairUpdate _ e _ ?_)) (ih _)
    · exact fun x => ⟨rfl, rfl⟩
    · exact fun x => ⟨rfl, rfl⟩

/-- Twin-sync is preserved by marking a whole path (bounds on the path's
edges are needed so that writes and their mirrored writes stay in range). -/
theorem paired_markFold (l : List EdgeId) (g : RepeatGraph)
    (hWF : CWF g.complementEdge g.edges.length)
    (hb : ∀ e ∈ l, e < g.edges.length) (hp : Paired g) :
    Paired (l.foldl (fun gg e => markEdgePairAlt gg e true) g) ∧
    (l.foldl (fun gg e => markEdgePairAlt gg e true) g).complementEdge =
      g.complementEdge ∧
    (l.foldl (fun gg e => markEdgePairAlt gg e true) g).edges.length =
      g.edges.length := by
  induction l generalizing g with
  | nil => exact ⟨hp, rfl, rfl⟩
  | cons e l ih =>
    rw [List.foldl_cons]
    have he : e < g.edges.length := hb e (List.mem_cons_self e l)
    have hp' : Paired (markEdgePairAlt g e true) :=
      paired_pairUpdate g e _ hWF he (fun x y h1 h2 => ⟨rfl, h2⟩) hp
    have hWF' : CWF (markEdgePairAlt g e true).complementEdge
        (markEdgePairAlt g e true).edges.length := by
      rw [length_markEdgePairAlt]
      exact hWF
    have hb' : ∀ x ∈ l, x < (markEdgePairAlt g e true).edges.length := by
      intro x hx
      rw [length_markEdgePairAlt]
      exact hb x (List.mem_cons_of_mem e hx)
    obtain ⟨q1, q2, q3⟩ := ih (markEdgePairAlt g e true) hWF' hb' hp'
    exact ⟨q1, q2, q3.trans (length_markEdgePairAlt g e true)⟩

theorem paired_markPathAlt (g : RepeatGraph) (p : UnbranchingPath)
    (hWF : CWF g.complementEdge g.edges.length)
    (hb : ∀ e ∈ p.path, e < g.edges.length) (hp : Paired g) :
    Paired (markPathAlt g p) :=
  (paired_markFold p.path g hWF hb hp).1

theorem paired_addCovClearAlt (g : RepeatGraph) (p : UnbranchingPath) (c : ℚ)
    (hWF : CWF g.complementEdge g.edges.length)
    (hb : ∀ e ∈ p.path, e < g.edges.length) (hp : Paired g) :
    Paired (addCovClearAlt g p c) := by
  unfold addCovClearAlt
  have main : ∀ (l : List EdgeId) (g' : RepeatGraph),
      CWF g'.complementEdge g'.edges.length →
      (∀ e ∈ l, e < g'.edges.length) → Paired g' →
      Paired (l.foldl (fun gg e =>
        pairUpdate (pairUpdate gg e fun x => { x with meanCoverage := x.meanCoverage + c })
          e fun x => { x with altHaplotype := false }) g') := by
    intro l
    induction l with
    | nil => intro g' _ _ hp'; exact hp'
    | cons e l ih =>
      intro g' hWF' hb' hp'
      rw [List.foldl_cons]
      have he : e < g'.edges.length := hb' e (List.mem_cons_self e l)
      have hstep1 : Paired (pairUpdate g' e
          fun x => { x with meanCoverage := x.meanCoverage + c }) :=
        paired_pairUpdate g' e _ hWF' he (fun x y h1 h2 => ⟨h1, by rw [h2]⟩) hp'
      have hWF1 : CWF (pairUpdate g' e
          (fun x => { x with meanCoverage := x.meanCoverage + c })).complementEdge
          (pairUpdate g' e
          (fun x => { x with meanCoverage := x.meanCoverage + c })).edges.length := by
        rw [length_pairUpdate]
        exact hWF'
      have he1 : e < (pairUpdate g' e
          (fun x => { x with meanCoverage := x.meanCoverage + c })).edges.length := by
        rw [length_pairUpdate]; exact he
      have hstep2 : Paired (pairUpdate (pairUpdate g' e
          fun x => { x with meanCoverage := x.meanCoverage + c })
          e fun x => { x with altHaplotype := false }) :=
        paired_pairUpdate _ e _ hWF1 he1 (fun x y h1 h2 => ⟨rfl, h2⟩) hstep1
      have hWF2 : CWF (pairUpdate (pairUpdate g' e
          (fun x => { x with meanCoverage := x.meanCoverage + c }))
          e (fun x => { x with altHaplotype := false })).complementEdge
          (pairUpdate (pairUpdate g' e
          (fun x => { x with meanCoverage := x.meanCoverage + c }))
          e (fun x => { x with altHaplotype := false })).edges.length := by
        rw [length_pairUpdate, length_pairUpdate]
        exact hWF'
      refine ih _ hWF2 ?_ hstep2
      intro x hx
      rw [length_pairUpdate, length_pairUpdate]
      exact hb' x (List.mem_cons_of_mem e hx)
  exact main p.path g hWF hb hp

theorem alt_pairUpdate_keep (g : RepeatGraph) (e : EdgeId) (F : GraphEdge → GraphEdge)
    (hF : ∀ x, (F x).altHaplotype = x.altHaplotype) :
    ∀ j, ((pairUpdate g e F).edge j).altHaplotype = (g.edge j).altHaplotype := by
  intro j
  rw [edge_pairUpdate]
  split_ifs with h1 h2
  · rw [hF, hF]
  · rw [hF]
  · rw [hF]
  · rfl

/-- `AltMut` is preserved by marking a whole path. -/
theorem altMut_markFold (g0 : RepeatGraph) (l : List EdgeId) (g : RepeatGraph)
    (hWF : CWF g0.complementEdge g0.edges.length)
    (hcompl : g.complementEdge = g0.complementEdge)
    (hlen : g.edges.length = g0.edges.length)
    (hb : ∀ e ∈ l, e < g.edges.length)
    (hm : AltMut g0 g) :
    AltMut g0 (l.foldl (fun gg e => markEdgePairAlt gg e true) g) ∧
    (l.foldl (fun gg e => markEdgePairAlt gg e true) g).complementEdge =
      g0.complementEdge ∧
    (l.foldl (fun gg e => markEdgePairAlt gg e true) g).edges.length =
      g0.edges.length := by
  induction l generalizing g with
  | nil => exact ⟨hm, hcompl, hlen⟩
  | cons e l ih =>
    rw [List.foldl_cons]
    have he : e < g.edges.length := hb e (List.mem_cons_self e l)
    have hm' : AltMut g0 (markEdgePairAlt g e true) :=
      altMut_pairUpdate_alt g0 g e true hWF hcompl hlen he hm
    refine ih (markEdgePairAlt g e true) ?_ ?_ ?_ hm'
    · exact hcompl
    · rw [length_markEdgePairAlt]; exact hlen
    · intro x hx
      rw [length_markEdgePairAlt]
      exact hb x (List.mem_cons_of_mem e hx)

/-- `AltMut` is preserved by the coverage-addition / alt-clearing loop of the
collapse action. -/
theorem altMut_covClearFold (g0 : RepeatGraph) (c : ℚ) (l : List EdgeId)
    (g : RepeatGraph)
    (hWF : CWF g0.complementEdge g0.edges.length)
    (hcompl : g.complementEdge = g0.complementEdge)
    (hlen : g.edges.length = g0.edges.length)
    (hb : ∀ e ∈ l, e < g.edges.length)
    (hm : AltMut g0 g) :
    AltMut g0 (l.foldl (fun gg e =>
      pairUpdate (pairUpdate gg e fun x => { x with meanCoverage := x.meanCoverage + c })
        e fun x => { x with altHaplotype := false }) g) ∧
    (l.foldl (fun gg e =>
      pairUpdate (pairUpdate gg e fun x => { x with meanCoverage := x.meanCoverage + c })
        e fun x => { x with altHaplotype := false }) g).complementEdge =
      g0.complementEdge ∧
    (l.foldl (fun gg e =>
      pairUpdate (pairUpdate gg e fun x => { x with meanCoverage := x.meanCoverage + c })
        e fun x => { x with altHaplotype := false }) g).edges.length =
      g0.edges.length := by
  induction l generalizing g with
  | nil => exact ⟨hm, hcompl, hlen⟩
  | cons e l ih =>
    rw [List.foldl_cons]
    have he : e < g.edges.length := hb e (List.mem_cons_self e l)
    have hm1 : AltMut g0 (pairUpdate g e
        fun x => { x with meanCoverage := x.meanCoverage + c}) :=
      altMut_congr g0 g _ (alt_pairUpdate_keep g e _ (fun x => rfl)) hm
    have hm2 : AltMut g0 (pairUpdate (pairUpdate g e
        fun x => { x with meanCoverage := x.meanCoverage + c })
        e fun x => { x with altHaplotype := false }) := by
      refine altMut_pairUpdate_alt g0 _ e false hWF ?_ ?_ ?_ hm1
      · exact hcompl
      · rw [length_pairUpdate]; exact hlen
      · rw [length_pairUpdate]; exact he
    refine ih _ ?_ ?_ ?_ hm2
    · exact hcompl
    · rw [length_pairUpdate, length_pairUpdate]; exact hlen
    · intro x hx
      rw [length_pairUpdate, length_pairUpdate]
      exact hb x (List.mem_cons_of_mem e hx)

/-! ## Case analysis of the scan steps -/

theorem bulgeCandidate_facts (g : RepeatGraph) (ups : List UnbranchingPath)
    (ts : List SeqId) (p a b : UnbranchingPath)
    (h : bulgeCandidate g ups ts p = some (a, b)) :
    a ∈ ups ∧ b ∈ ups ∧ a.id ∉ ts ∧ b.id ∉ ts ∧ bulgeDegreeOk g a = true := by
  unfold bulgeCandidate at h
  by_cases hl : g.pathIsLooped p = true
  · rw [if_pos hl] at h; cases h
  · rw [if_neg hl] at h
    cases htp : bulgeTwoPaths g ups p with
    | nil => rw [htp] at h; dsimp only at h; cases h
    | cons x xs =>
      cases xs with
      | nil => rw [htp] at h; dsimp only at h; cases h
      | cons y ys =>
        cases ys with
        | nil =>
          rw [htp] at h
          dsimp only at h
          by_cases hrc : x.id = y.id.rc
          · rw [if_pos hrc] at h; cases h
          · rw [if_neg hrc] at h
            by_cases hts : x.id ∈ ts ∨ y.id ∈ ts
            · rw [if_pos hts] at h; cases h
            · rw [if_neg hts] at h
              by_cases hdeg : bulgeDegreeOk g x = true
              · rw [if_pos hdeg] at h
                have hxa : x = a ∧ y = b := by
                  cases h; exact ⟨rfl, rfl⟩
                obtain ⟨hxa, hyb⟩ := hxa
                subst hxa; subst hyb
                push_neg at hts
                have hxm : x ∈ bulgeTwoPaths g ups p := by
                  rw [htp]; exact List.mem_cons_self x [y]
                have hym : y ∈ bulgeTwoPaths g ups p := by
                  rw [htp]
                  exact List.mem_cons_of_mem x (List.mem_cons_self y [])
                exact ⟨List.mem_of_mem_filter hxm, List.mem_of_mem_filter hym,
                  hts.1, hts.2, hdeg⟩
              · rw [if_neg hdeg] at h; cases h
        | cons z zs => rw [htp] at h; dsimp only at h; cases h

theorem bulgeScanStep_cases (maxLen : Nat) (ra : Bool) (ups : List UnbranchingPath)
    (st : BulgeScanState) (p : UnbranchingPath) :
    bulgeScanStep maxLen ra ups st p = st ∨
    ∃ a b, a ∈ ups ∧ b ∈ ups ∧ a.id ∉ st.toSeparate ∧ b.id ∉ st.toSeparate ∧
      bulgeScanStep maxLen ra ups st p = bulgeAccept ra st a b := by
  unfold bulgeScanStep
  cases hc : bulgeCandidate st.g ups st.toSeparate p with
  | none => left; rfl
  | some ab =>
    obtain ⟨a0, b0⟩ := ab
    obtain ⟨hma, hmb, hta, htb, _⟩ :=
      bulgeCandidate_facts st.g ups st.toSeparate p a0 b0 hc
    dsimp only
    by_cases h1 : max a0.length b0.length > maxLen
    · rw [if_pos h1]; left; rfl
    · rw [if_neg h1]
      cases he : bulgeEntrance st.g ups a0 with
      | none => left; rfl
      | some ent =>
        cases hx : bulgeExit st.g ups a0 with
        | none => left; rfl
        | some ex =>
          dsimp only
          by_cases h2 : a0.meanCoverage + b0.meanCoverage >
              min (ent.meanCoverage * MAX_COV_VAR) (ex.meanCoverage * MAX_COV_VAR)
          · rw [if_pos h2]; left; rfl
          · rw [if_neg h2]
            by_cases h3 : max a0.length b0.length > max ent.length ex.length
            · rw [if_pos h3]; left; rfl
            · rw [if_neg h3]
              by_cases h4 : a0.meanCoverage > b0.meanCoverage
              · rw [if_pos h4]; right
                exact ⟨b0, a0, hmb, hma, htb, hta, rfl⟩
              · rw [if_neg h4]; right
                exact ⟨a0, b0, hma, hmb, hta, htb, rfl⟩

theorem loopScanStep_cases (ups : List UnbranchingPath) (st : LoopScanState)
    (loop : UnbranchingPath) :
    loopScanStep ups st loop = st ∨
    ∃ ent ex, loopScanStep ups st loop = loopAccept st loop ent ex := by
  unfold loopScanStep
  by_cases h0 : loopReachesLookups st.g loop = true
  · rw [h0]
    simp only [Bool.not_true, Bool.false_eq_true, if_false]
    cases he : loopEntrance st.g ups loop with
    | none => left; rfl
    | some ent =>
      cases hx : loopExit st.g ups loop with
      | none => left; rfl
      | some ex =>
        dsimp only
        by_cases h1 : st.g.pathIsLooped ent = true
        · rw [if_pos h1]; left; rfl
        · rw [if_neg h1]
          by_cases h2 : ent.id = ex.id.rc
          · rw [if_pos h2]; left; rfl
          · rw [if_neg h2]
            by_cases h3 : loop.meanCoverage >
                MAX_COV_VAR * min ent.meanCoverage ent.meanCoverage
            · rw [if_pos h3]; left; rfl
            · rw [if_neg h3]
              by_cases h4 : loop.length > max ent.length ex.length
              · rw [if_pos h4]; left; rfl
              · rw [if_neg h4]; right; exact ⟨ent, ex, rfl⟩
  · left
    have h0' : (!loopReachesLookups st.g loop) = true := by
      simp [Bool.not_eq_true'] at h0 ⊢
      exact h0
    rw [if_pos h0']

theorem bulgeAccept_false_g (st : BulgeScanState) (a b : UnbranchingPath) :
    (bulgeAccept false st a b).g = markPathAlt (markPathAlt st.g a) b := rfl

theorem bulgeAccept_false_toSeparate (st : BulgeScanState) (a b : UnbranchingPath) :
    (bulgeAccept false st a b).toSeparate = st.toSeparate := rfl

theorem bulgeAccept_true_g (st : BulgeScanState) (a b : UnbranchingPath) :
    (bulgeAccept true st a b).g =
      addCovClearAlt (markPathAlt (markPathAlt st.g a) b) b a.meanCoverage := rfl

theorem bulgeAccept_true_toSeparate (st : BulgeScanState) (a b : UnbranchingPath) :
    (bulgeAccept true st a b).toSeparate =
      setInsert (setInsert st.toSeparate a.id) a.id.rc := rfl

theorem loopAccept_g (st : LoopScanState) (loop ent ex : UnbranchingPath) :
    (loopAccept st loop ent ex).g = markPathAlt st.g loop := by
  unfold loopAccept
  by_cases h : loop.meanCoverage < (ent.meanCoverage + ex.meanCoverage) / 4
  · rw [if_pos h]
  · rw [if_neg h]

theorem altOnly_bulgeScanStep_mask (maxLen : Nat) (ups : List UnbranchingPath)
    (st : BulgeScanState) (p : UnbranchingPath) :
    AltOnly st.g (bulgeScanStep maxLen false ups st p).g := by
  rcases bulgeScanStep_cases maxLen false ups st p with h | ⟨a, b, _, _, _, _, h⟩
  · rw [h]; exact altOnly_refl _
  · rw [h, bulgeAccept_false_g]
    exact altOnly_trans (altOnly_markPathAlt st.g a) (altOnly_markPathAlt _ b)

theorem altOnly_bulgeScanFrom_mask (maxLen : Nat) (ups l : List UnbranchingPath)
    (st : BulgeScanState) :
    AltOnly st.g (bulgeScanFrom maxLen false ups st l).g := by
  induction l generalizing st with
  | nil => exact altOnly_refl _
  | cons p l ih =>
    unfold bulgeScanFrom
    rw [List.foldl_cons]
    exact altOnly_trans (altOnly_bulgeScanStep_mask maxLen ups st p)
      (ih (bulgeScanStep maxLen false ups st p))

/-- Claim C6: in mask mode (`removeAlternatives = false`) the bulge pass
leaves the node list (hence every node's `inEdges`/`outEdges`), the edge
count, the twin map, and every edge field other than `altHaplotype`
unchanged. -/
theorem bulge_mask_mode_frame (maxBubbleLen : Nat) (g : RepeatGraph)
    (ups : List UnbranchingPath) :
    (collapseHeterozygousBulges maxBubbleLen g ups false).1.nodes = g.nodes ∧
    (collapseHeterozygousBulges maxBubbleLen g ups false).1.edges.length =
      g.edges.length ∧
    (collapseHeterozygousBulges maxBubbleLen g ups false).1.complementEdge =
      g.complementEdge ∧
    ∀ i, stripAlt ((collapseHeterozygousBulges maxBubbleLen g ups false).1.edge i) =
      stripAlt (g.edge i) := by
  have h := altOnly_bulgeScanFrom_mask maxBubbleLen ups ups ⟨g, [], 0⟩
  exact ⟨h.1, h.2.2.1, h.2.1, h.2.2.2⟩

theorem bulgeAccept_numMasked (ra : Bool) (st : BulgeScanState)
    (a b : UnbranchingPath) :
    (bulgeAccept ra st a b).numMasked =
      if !(st.g.edge a.front).altHaplotype ∨ !(st.g.edge b.front).altHaplotype
      then st.numMasked + 1 else st.numMasked := by
  cases ra <;> rfl

/-- Claim C2: whenever a bulge candidate reaches the coverage test with
branches `a`, `b`, entrance `ent` and exit `ex`, and
`a.meanCoverage + b.meanCoverage > min(ent, ex) × 1.5`, the whole iteration
rejects the bubble: the scan state (graph, staged ids, mask counter) is left
unchanged. -/
theorem bulge_coverage_test_rejects (maxLen : Nat) (ra : Bool)
    (ups : List UnbranchingPath) (st : BulgeScanState)
    (p a b ent ex : UnbranchingPath)
    (hc : bulgeCandidate st.g ups st.toSeparate p = some (a, b))
    (hent : bulgeEntrance st.g ups a = some ent)
    (hex : bulgeExit st.g ups a = some ex)
    (hcov : a.meanCoverage + b.meanCoverage >
      min ent.meanCoverage ex.meanCoverage * (3 / 2 : ℚ)) :
    bulgeScanStep maxLen ra ups st p = st := by
  unfold bulgeScanStep
  rw [hc]
  dsimp only
  by_cases h1 : max a.length b.length > maxLen
  · rw [if_pos h1]
  · rw [if_neg h1, hent, hex]
    dsimp only
    have h15 : (0 : ℚ) ≤ MAX_COV_VAR := by norm_num [MAX_COV_VAR]
    have hmin : min (ent.meanCoverage * MAX_COV_VAR) (ex.meanCoverage * MAX_COV_VAR) =
        min ent.meanCoverage ex.meanCoverage * MAX_COV_VAR := by
      rcases le_total ent.meanCoverage ex.meanCoverage with hle | hle
      · rw [min_eq_left hle, min_eq_left (mul_le_mul_of_nonneg_right hle h15)]
      · rw [min_eq_right hle, min_eq_right (mul_le_mul_of_nonneg_right hle h15)]
    rw [if_pos (by rw [hmin]; exact hcov)]

/-- Claim C2 witness: scenario 3 of spec §8 — coverage sum 40 exceeds
1.5 × min(10, 10); the iteration is a no-op. -/
theorem bulge_coverage_test_rejects_witness :
    bulgeCandidate gBulgeRej upsBulgeRej [] ⟨⟨2, true⟩, [2], 5, 20⟩ =
      some (⟨⟨2, true⟩, [2], 5, 20⟩, ⟨⟨3, true⟩, [4], 5, 20⟩) ∧
    bulgeScanStep 50000 false upsBulgeRej ⟨gBulgeRej, [], 0⟩
      ⟨⟨2, true⟩, [2], 5, 20⟩ = ⟨gBulgeRej, [], 0⟩ :=
  ⟨by decide,
   bulge_coverage_test_rejects 50000 false upsBulgeRej ⟨gBulgeRej, [], 0⟩
     ⟨⟨2, true⟩, [2], 5, 20⟩ ⟨⟨2, true⟩, [2], 5, 20⟩
     ⟨⟨3, true⟩, [4], 5, 20⟩ ⟨⟨1, true⟩, [0], 10, 10⟩
     ⟨⟨4, true⟩, [6], 10, 10⟩ (by with_unfolding_all decide)
     (by with_unfolding_all decide) (by with_unfolding_all decide)
     (by with_unfolding_all decide)⟩

/-- Claim C3 (amended): for an accepted bubble the mask counter is
incremented exactly when AT LEAST ONE of the two branches' first edges was
not already flagged `altHaplotype` (the code tests `!a || !b`, not
`!a && !b`); in mask mode the function returns the final counter. -/
theorem bulge_mask_counter_increment (maxLen : Nat) (ra : Bool)
    (ups : List UnbranchingPath) (st : BulgeScanState)
    (p a b ent ex : UnbranchingPath)
    (hc : bulgeCandidate st.g ups st.toSeparate p = some (a, b))
    (hent : bulgeEntrance st.g ups a = some ent)
    (hex : bulgeExit st.g ups a = some ex)
    (hlen1 : ¬ max a.length b.length > maxLen)
    (hcov : ¬ a.meanCoverage + b.meanCoverage >
      min (ent.meanCoverage * MAX_COV_VAR) (ex.meanCoverage * MAX_COV_VAR))
    (hlen2 : ¬ max a.length b.length > max ent.length ex.length) :
    ((bulgeScanStep maxLen ra ups st p).numMasked = st.numMasked + 1 ↔
      ((st.g.edge a.front).altHaplotype = false ∨
       (st.g.edge b.front).altHaplotype = false)) ∧
    ∀ (g0 : RepeatGraph) (ups0 : List UnbranchingPath),
      (collapseHeterozygousBulges maxLen g0 ups0 false).2 =
        (bulgeScanFrom maxLen false ups0 ⟨g0, [], 0⟩ ups0).numMasked := by
  have hiff : ∀ x y : UnbranchingPath,
      ((bulgeAccept ra st x y).numMasked = st.numMasked + 1 ↔
        ((st.g.edge x.front).altHaplotype = false ∨
         (st.g.edge y.front).altHaplotype = false)) := by
    intro x y
    rw [bulgeAccept_numMasked]
    by_cases hcond : (!(st.g.edge x.front).altHaplotype) = true ∨
        (!(st.g.edge y.front).altHaplotype) = true
    · rw [if_pos hcond]
      simp only [Bool.not_eq_true'] at hcond
      exact iff_of_true rfl hcond
    · rw [if_neg hcond]
      simp only [Bool.not_eq_true'] at hcond
      constructor
      · intro h; omega
      · intro h; exact absurd h hcond
  constructor
  · unfold bulgeScanStep
    rw [hc]
    dsimp only
    rw [if_neg hlen1, hent, hex]
    dsimp only
    rw [if_neg hcov, if_neg hlen2]
    by_cases hswap : a.meanCoverage > b.meanCoverage
    · rw [if_pos hswap]
      rw [hiff b a]
      exact or_comm
    · rw [if_neg hswap]
      exact hiff a b
  · intro g0 ups0
    rfl

/-- Claim C3 counterexample: scenario 1 with branch A pre-flagged
(`gBulgeAltA`).  The accepted bubble has a previously flagged branch (edge 2),
yet the iteration increments the counter and mask mode returns 1; the claim's
"increment only when neither branch was flagged" predicts 0. -/
theorem bulge_mask_counter_counterexample :
    (gBulgeAltA.edge 2).altHaplotype = true ∧
    (bulgeScanStep 50000 false upsBulge ⟨gBulgeAltA, [], 0⟩
      ⟨⟨2, true⟩, [2], 5, 10⟩).numMasked = 1 ∧
    (collapseHeterozygousBulges 50000 gBulgeAltA upsBulge false).2 = 1 :=
  ⟨by decide, by with_unfolding_all decide, by with_unfolding_all decide⟩

/-- Claim C3 witness: the scenario-1 bubble, no prior flags: the iff and the
mask-mode return rule instantiated at a concrete accepted bubble. -/
theorem bulge_mask_counter_increment_witness :
    ((bulgeScanStep 50000 false upsBulge ⟨gBulge, [], 0⟩
        ⟨⟨2, true⟩, [2], 5, 10⟩).numMasked = 0 + 1 ↔
      ((gBulge.edge 2).altHaplotype = false ∨
       (gBulge.edge 4).altHaplotype = false)) ∧
    ∀ (g0 : RepeatGraph) (ups0 : List UnbranchingPath),
      (collapseHeterozygousBulges 50000 g0 ups0 false).2 =
        (bulgeScanFrom 50000 false ups0 ⟨g0, [], 0⟩ ups0).numMasked :=
  bulge_mask_counter_increment 50000 false upsBulge ⟨gBulge, [], 0⟩
    ⟨⟨2, true⟩, [2], 5, 10⟩ ⟨⟨2, true⟩, [2], 5, 10⟩
    ⟨⟨3, true⟩, [4], 5, 20⟩ ⟨⟨1, true⟩, [0], 10, 30⟩
    ⟨⟨4, true⟩, [6], 10, 30⟩ (by with_unfolding_all decide)
    (by with_unfolding_all decide) (by with_unfolding_all decide)
    (by with_unfolding_all decide) (by with_unfolding_all decide)
    (by with_unfolding_all decide)

theorem loopAccept_toRemove (st : LoopScanState) (loop ent ex : UnbranchingPath) :
    (loopAccept st loop ent ex).toRemove =
      if loop.meanCoverage < (ent.meanCoverage + ex.meanCoverage) / 4 then
        setInsert (setInsert st.toRemove loop.id) loop.id.rc
      else st.toRemove := by
  unfold loopAccept
  by_cases h : loop.meanCoverage < (ent.meanCoverage + ex.meanCoverage) / 4
  · rw [if_pos h, if_pos h]
  · rw [if_neg h, if_neg h]

theorem loopAccept_toUnroll (st : LoopScanState) (loop ent ex : UnbranchingPath) :
    (loopAccept st loop ent ex).toUnroll =
      if loop.meanCoverage < (ent.meanCoverage + ex.meanCoverage) / 4 then
        st.toUnroll
      else setInsert (setInsert st.toUnroll loop.id) loop.id.rc := by
  unfold loopAccept
  by_cases h : loop.meanCoverage < (ent.meanCoverage + ex.meanCoverage) / 4
  · rw [if_pos h, if_pos h]
  · rw [if_neg h, if_neg h]

/-- Claim C5: the loop coverage test at lines 172–175 takes the minimum of the
entrance's coverage with itself — it rejects exactly when
`loop.meanCoverage > 1.5 × entrance.meanCoverage` and never consults the
exit's coverage; a candidate rejected by it leaves the scan state unchanged. -/
theorem loop_coverage_test_entrance_only (ups : List UnbranchingPath)
    (st : LoopScanState) (loop ent ex : UnbranchingPath)
    (h0 : loopReachesLookups st.g loop = true)
    (hent : loopEntrance st.g ups loop = some ent)
    (hex : loopExit st.g ups loop = some ex)
    (hnl : ¬ st.g.pathIsLooped ent = true)
    (hrc : ¬ ent.id = ex.id.rc) :
    (loop.meanCoverage > MAX_COV_VAR * min ent.meanCoverage ent.meanCoverage ↔
      loop.meanCoverage > (3 / 2 : ℚ) * ent.meanCoverage) ∧
    (loop.meanCoverage > MAX_COV_VAR * min ent.meanCoverage ent.meanCoverage →
      loopScanStep ups st loop = st) := by
  constructor
  · rw [min_self]
    exact Iff.rfl
  · intro hrej
    unfold loopScanStep
    rw [h0]
    simp only [Bool.not_true, Bool.false_eq_true, if_false]
    rw [hent, hex]
    dsimp only
    rw [if_neg hnl, if_neg hrc, if_pos hrej]

/-- Claim C5 witness: the scenario-5 loop (coverage 15, entrance 20): the test
is equivalent to comparing against 1.5 × entrance, which does not fire here. -/
theorem loop_coverage_test_entrance_only_witness :
    ((15 : ℚ) > MAX_COV_VAR * min (20 : ℚ) 20 ↔
      (15 : ℚ) > (3 / 2 : ℚ) * 20) ∧
    ((15 : ℚ) > MAX_COV_VAR * min (20 : ℚ) 20 →
      loopScanStep upsLoopU ⟨gLoopU, [], [], 0⟩ ⟨⟨2, true⟩, [2], 5, 15⟩ =
        ⟨gLoopU, [], [], 0⟩) :=
  loop_coverage_test_entrance_only upsLoopU ⟨gLoopU, [], [], 0⟩
    ⟨⟨2, true⟩, [2], 5, 15⟩ ⟨⟨1, true⟩, [0], 10, 20⟩
    ⟨⟨3, true⟩, [4], 10, 20⟩ (by decide) (by decide) (by decide)
    (by decide) (by decide)

/-- Claim C4: for an accepted self-loop with entrance `ent` and exit `ex`,
both strands of the loop's id are staged for removal exactly when
`loop.meanCoverage < (ent.meanCoverage + ex.meanCoverage) / 4` and for
unrolling otherwise, and in collapse mode the pass returns
`(|toRemove| + |toUnroll|) / 2`. -/
theorem loop_staging_policy (ups : List UnbranchingPath) (st : LoopScanState)
    (loop ent ex : UnbranchingPath)
    (h0 : loopReachesLookups st.g loop = true)
    (hent : loopEntrance st.g ups loop = some ent)
    (hex : loopExit st.g ups loop = some ex)
    (hnl : ¬ st.g.pathIsLooped ent = true)
    (hrc : ¬ ent.id = ex.id.rc)
    (hcov : ¬ loop.meanCoverage >
      MAX_COV_VAR * min ent.meanCoverage ent.meanCoverage)
    (hlen : ¬ loop.length > max ent.length ex.length) :
    ((loopScanStep ups st loop).toRemove =
      if loop.meanCoverage < (ent.meanCoverage + ex.meanCoverage) / 4 then
        setInsert (setInsert st.toRemove loop.id) loop.id.rc
      else st.toRemove) ∧
    ((loopScanStep ups st loop).toUnroll =
      if loop.meanCoverage < (ent.meanCoverage + ex.meanCoverage) / 4 then
        st.toUnroll
      else setInsert (setInsert st.toUnroll loop.id) loop.id.rc) ∧
    ∀ (g0 : RepeatGraph) (ups0 : List UnbranchingPath),
      (collapseHeterozygousLoops g0 ups0 true).2 =
        ((loopScanFrom ups0 ⟨g0, [], [], 0⟩ ups0).toRemove.length +
         (loopScanFrom ups0 ⟨g0, [], [], 0⟩ ups0).toUnroll.length) / 2 := by
  have hstep : loopScanStep ups st loop = loopAccept st loop ent ex := by
    unfold loopScanStep
    rw [h0]
    simp only [Bool.not_true, Bool.false_eq_true, if_false]
    rw [hent, hex]
    dsimp only
    rw [if_neg hnl, if_neg hrc, if_neg hcov, if_neg hlen]
  refine ⟨?_, ?_, ?_⟩
  · rw [hstep, loopAccept_toRemove]
  · rw [hstep, loopAccept_toUnroll]
  · intro g0 ups0
    rfl

/-- Claim C4 witness: the scenario-6 loop (coverage 5 < (20+20)/4 = 10) is
staged for removal on both strands, and the collapse-mode return rule holds. -/
theorem loop_staging_policy_witness :
    ((loopScanStep upsLoopR ⟨gLoopR, [], [], 0⟩
        ⟨⟨2, true⟩, [2], 5, 5⟩).toRemove =
      if (5 : ℚ) < ((20 : ℚ) + 20) / 4 then
        setInsert (setInsert [] ⟨2, true⟩) (SeqId.rc ⟨2, true⟩)
      else []) ∧
    ((loopScanStep upsLoopR ⟨gLoopR, [], [], 0⟩
        ⟨⟨2, true⟩, [2], 5, 5⟩).toUnroll =
      if (5 : ℚ) < ((20 : ℚ) + 20) / 4 then []
      else setInsert (setInsert [] ⟨2, true⟩) (SeqId.rc ⟨2, true⟩)) ∧
    ∀ (g0 : RepeatGraph) (ups0 : List UnbranchingPath),
      (collapseHeterozygousLoops g0 ups0 true).2 =
        ((loopScanFrom ups0 ⟨g0, [], [], 0⟩ ups0).toRemove.length +
         (loopScanFrom ups0 ⟨g0, [], [], 0⟩ ups0).toUnroll.length) / 2 :=
  loop_staging_policy upsLoopR ⟨gLoopR, [], [], 0⟩ ⟨⟨2, true⟩, [2], 5, 5⟩
    ⟨⟨1, true⟩, [0], 10, 20⟩ ⟨⟨3, true⟩, [4], 10, 20⟩
    (by decide) (by decide) (by decide) (by decide) (by decide)
    (by with_unfolding_all decide) (by decide)

/-- Claim C9: `findComplexHaplotypes` is diagnostic only — for every input it
returns 0 and the graph state (adjacency lists, `altHaplotype`,
`meanCoverage`, everything) passes through unchanged; the body only computes
the emitted diagnostics. -/
theorem findComplexHaplotypes_pure (g : RepeatGraph) (ups : List UnbranchingPath)
    (alns : List GraphAlignment) :
    (findComplexHaplotypes g ups alns).1 = g ∧
    (findComplexHaplotypes g ups alns).2.1 = 0 :=
  ⟨rfl, rfl⟩

theorem foldl_last_pick (e : EdgeId) (l : List (Nat × EdgeAlignment)) (acc : Nat) :
    l.foldl (fun a ie => if ie.2.edge = e then ie.1 else a) acc =
      (match l.reverse.find? (fun ie => decide (ie.2.edge = e)) with
       | some ie => ie.1
       | none => acc) := by
  induction l generalizing acc with
  | nil => rfl
  | cons x xs ih =>
    rw [List.foldl_cons, ih, List.reverse_cons, List.find?_append]
    cases hfind : xs.reverse.find? (fun ie => decide (ie.2.edge = e)) with
    | some ie => rfl
    | none =>
      by_cases hq : x.2.edge = e
      · simp [List.find?, hq]
      · simp [List.find?, hq]

theorem trimBounds_eq (p : GraphAlignment) (sE eE : EdgeId) :
    trimBounds p sE eE = (lastOccIdx p sE, lastOccIdx p eE) := by
  unfold trimBounds lastOccIdx
  have hsplit : ∀ (l : List (Nat × EdgeAlignment)) (a b : Nat),
      l.foldl (fun (bb : Nat × Nat) ie =>
        (if ie.2.edge = sE then ie.1 else bb.1,
         if ie.2.edge = eE then ie.1 else bb.2)) (a, b) =
      (l.foldl (fun aa ie => if ie.2.edge = sE then ie.1 else aa) a,
       l.foldl (fun aa ie => if ie.2.edge = eE then ie.1 else aa) b) := by
    intro l
    induction l with
    | nil => intro a b; rfl
    | cons x xs ih =>
      intro a b
      rw [List.foldl_cons, List.foldl_cons, List.foldl_cons, ih]
  rw [hsplit, foldl_last_pick, foldl_last_pick]

/-- Claim C8 (amended): each surviving group is trimmed to the sub-path of
its alignment between the LAST occurrence of the reference path's
`bubbleStartId` edge and the LAST occurrence of its `bubbleEndId` edge
(position 0 standing in for an absent edge), inclusive of both bounds — the
trim loop at lines 425–434 keeps overwriting, so first occurrences are used
only when the boundary edges do not repeat. -/
theorem trim_uses_last_occurrence (p : GraphAlignment) (sE eE : EdgeId) :
    trimGroup p sE eE = (p.take (lastOccIdx p eE + 1)).drop (lastOccIdx p sE) := by
  unfold trimGroup
  rw [trimBounds_eq]

/-- Claim C8 counterexample: on `gC8` with alignments following `s·x·c·s` and
`s·y·c`, the pass emits one bubble with boundary edges s (0) and c (6).  The
surviving reference group `[s, x, c, s]` repeats the start edge, so the code
trims it to the EMPTY branch (last occurrences give bounds (3, 2)), while the
claim's first-occurrence trim would give `[s, x, c]`. -/
theorem trim_first_occurrence_counterexample :
    ((findComplexHaplotypes gC8 upsC8 alnsC8).2.2.map fun d =>
      (d.boundaryStart, d.boundaryEnd,
       d.groups.map fun gp => gp.path.map fun r => r.edge,
       d.branches.map fun br => br.path.map fun r => r.edge)) =
      [(0, 6, [[0, 2, 6, 0], [0, 4, 6]], [[], [0, 4, 6]])] ∧
    (trimGroupFirstSpec [⟨0, 100⟩, ⟨2, 150⟩, ⟨6, 250⟩, ⟨0, 350⟩] 0 6).map
      (fun r => r.edge) = [0, 2, 6] ∧
    ([] : List EdgeId) ≠ [0, 2, 6] :=
  ⟨by with_unfolding_all decide, by decide, by decide⟩

/-! ## The commit phases only touch adjacency and edge endpoints -/

theorem altCovEq_refl (g : RepeatGraph) : AltCovEq g g := ⟨rfl, rfl, fun _ => ⟨rfl, rfl⟩⟩

theorem altCovEq_trans {g g' g'' : RepeatGraph} :
    AltCovEq g g' → AltCovEq g' g'' → AltCovEq g g'' := by
  rintro ⟨h1, h2, h3⟩ ⟨h1', h2', h3'⟩
  exact ⟨h1'.trans h1, h2'.trans h2,
    fun i => ⟨(h3' i).1.trans (h3 i).1, (h3' i).2.trans (h3 i).2⟩⟩

theorem altCovEq_setNode (g : RepeatGraph) (v : NodeId) (f : GraphNode → GraphNode) :
    AltCovEq g (g.setNode v f) := ⟨rfl, rfl, fun _ => ⟨rfl, rfl⟩⟩

theorem altCovEq_addNode (g : RepeatGraph) : AltCovEq g g.addNode :=
  ⟨rfl, rfl, fun _ => ⟨rfl, rfl⟩⟩

theorem altCovEq_setEdge (g : RepeatGraph) (i : EdgeId) (F : GraphEdge → GraphEdge)
    (hF : ∀ x, (F x).altHaplotype = x.altHaplotype ∧ (F x).meanCoverage = x.meanCoverage) :
    AltCovEq g (g.setEdge i F) := by
  refine ⟨rfl, length_setEdge g i F, fun j => ?_⟩
  rw [edge_setEdge]
  split_ifs with h
  · exact hF _
  · exact ⟨rfl, rfl⟩

theorem altCovEq_separatePath (g : RepeatGraph) (p : UnbranchingPath) :
    AltCovEq g (separatePath g p) := by
  unfold separatePath
  dsimp only
  refine altCovEq_trans ?_ (altCovEq_setNode _ _ _)
  refine altCovEq_trans ?_ (altCovEq_setNode _ _ _)
  refine altCovEq_trans ?_ (altCovEq_setEdge _ _ _ fun x => ⟨rfl, rfl⟩)
  refine altCovEq_trans ?_ (altCovEq_setEdge _ _ _ fun x => ⟨rfl, rfl⟩)
  refine altCovEq_trans ?_ (altCovEq_setNode _ _ _)
  refine altCovEq_trans ?_ (altCovEq_setNode _ _ _)
  refine altCovEq_trans ?_ (altCovEq_addNode _)
  refine altCovEq_trans ?_ (altCovEq_addNode _)
  exact altCovEq_refl g

theorem altCovEq_unrollLoop (g : RepeatGraph) (p : UnbranchingPath) :
    AltCovEq g (unrollLoop g p) := by
  unfold unrollLoop
  dsimp only
  refine altCovEq_trans ?_ (altCovEq_setNode _ _ _)
  refine altCovEq_trans ?_ (altCovEq_setEdge _ _ _ fun x => ⟨rfl, rfl⟩)
  refine altCovEq_trans ?_ (altCovEq_setNode _ _ _)
  refine altCovEq_trans ?_ (altCovEq_setEdge _ _ _ fun x => ⟨rfl, rfl⟩)
  refine altCovEq_trans ?_ (altCovEq_setNode _ _ _)
  refine altCovEq_trans ?_ (altCovEq_setNode _ _ _)
  refine altCovEq_trans ?_ (altCovEq_addNode _)
  exact altCovEq_refl g

theorem altCovEq_removeLoop (g : RepeatGraph) (p : UnbranchingPath) :
    AltCovEq g (removeLoop g p) := by
  unfold removeLoop
  dsimp only
  refine altCovEq_trans ?_ (altCovEq_setNode _ _ _)
  refine altCovEq_trans ?_ (altCovEq_setEdge _ _ _ fun x => ⟨rfl, rfl⟩)
  refine altCovEq_trans ?_ (altCovEq_setNode _ _ _)
  refine altCovEq_trans ?_ (altCovEq_setEdge _ _ _ fun x => ⟨rfl, rfl⟩)
  refine altCovEq_trans ?_ (altCovEq_setNode _ _ _)
  refine altCovEq_trans ?_ (altCovEq_setNode _ _ _)
  refine altCovEq_trans ?_ (altCovEq_addNode _)
  refine altCovEq_trans ?_ (altCovEq_addNode _)
  exact altCovEq_refl g

theorem altCovEq_bulgeCommit (ts : List SeqId) (l : List UnbranchingPath)
    (g : RepeatGraph) :
    AltCovEq g (l.foldl (fun gg p => if p.id ∈ ts then separatePath gg p else gg) g) := by
  induction l generalizing g with
  | nil => exact altCovEq_refl g
  | cons p l ih =>
    rw [List.foldl_cons]
    by_cases h : p.id ∈ ts
    · rw [if_pos h]
      exact altCovEq_trans (altCovEq_separatePath g p) (ih _)
    · rw [if_neg h]
      exact ih g

theorem altCovEq_loopCommit (tu tr : List SeqId) (l : List UnbranchingPath)
    (g : RepeatGraph) :
    AltCovEq g (l.foldl (fun gg p =>
      let gg1 := if p.id ∈ tu then unrollLoop gg p else gg
      if p.id ∈ tr then removeLoop gg1 p else gg1) g) := by
  induction l generalizing g with
  | nil => exact altCovEq_refl g
  | cons p l ih =>
    rw [List.foldl_cons]
    refine altCovEq_trans ?_ (ih _)
    dsimp only
    by_cases h1 : p.id ∈ tu
    · rw [if_pos h1]
      by_cases h2 : p.id ∈ tr
      · rw [if_pos h2]
        exact altCovEq_trans (altCovEq_unrollLoop g p) (altCovEq_removeLoop _ p)
      · rw [if_neg h2]
        exact altCovEq_unrollLoop g p
    · rw [if_neg h1]
      by_cases h2 : p.id ∈ tr
      · rw [if_pos h2]
        exact altCovEq_removeLoop g p
      · rw [if_neg h2]
        exact altCovEq_refl g

theorem paired_of_altCovEq {g g' : RepeatGraph} (h : AltCovEq g g') :
    Paired g → Paired g' := by
  intro hp i hi
  rw [h.2.1] at hi
  rw [h.1]
  exact ⟨((h.2.2 _).1.trans (hp i hi).1).trans (h.2.2 i).1.symm,
    ((h.2.2 _).2.trans (hp i hi).2).trans (h.2.2 i).2.symm⟩

theorem altMut_of_altCovEq (g0 : RepeatGraph) {g g' : RepeatGraph}
    (h : AltCovEq g g') : AltMut g0 g → AltMut g0 g' :=
  altMut_congr g0 g g' (fun i => (h.2.2 i).1)

/-! ## Twin-sync and alt-mutation tracking through the scan phases -/

theorem markPathAlt_C1 (g0 gg : RepeatGraph) (p : UnbranchingPath)
    (hWF : CWF g0.complementEdge g0.edges.length)
    (hc : ∀ e ∈ p.path, e < g0.edges.length)
    (hcompl : gg.complementEdge = g0.complementEdge)
    (hlen : gg.edges.length = g0.edges.length)
    (hpp : Paired g0 → Paired gg) (hm : AltMut g0 gg) :
    (markPathAlt gg p).complementEdge = g0.complementEdge ∧
    (markPathAlt gg p).edges.length = g0.edges.length ∧
    (Paired g0 → Paired (markPathAlt gg p)) ∧ AltMut g0 (markPathAlt gg p) := by
  have hA := altOnly_markPathAlt gg p
  refine ⟨hA.2.1.trans hcompl, hA.2.2.1.trans hlen, ?_, ?_⟩
  · intro hp0
    refine paired_markPathAlt gg p ?_ ?_ (hpp hp0)
    · rw [hcompl, hlen]; exact hWF
    · intro e he; rw [hlen]; exact hc e he
  · exact (altMut_markFold g0 p.path gg hWF hcompl hlen
      (fun e he => by rw [hlen]; exact hc e he) hm).1

theorem addCovClearAlt_C1 (g0 gg : RepeatGraph) (p : UnbranchingPath) (c : ℚ)
    (hWF : CWF g0.complementEdge g0.edges.length)
    (hc : ∀ e ∈ p.path, e < g0.edges.length)
    (hcompl : gg.complementEdge = g0.complementEdge)
    (hlen : gg.edges.length = g0.edges.length)
    (hpp : Paired g0 → Paired gg) (hm : AltMut g0 gg) :
    (addCovClearAlt gg p c).complementEdge = g0.complementEdge ∧
    (addCovClearAlt gg p c).edges.length = g0.edges.length ∧
    (Paired g0 → Paired (addCovClearAlt gg p c)) ∧
    AltMut g0 (addCovClearAlt gg p c) := by
  have hA := adjEq_addCovClearAlt gg p c
  refine ⟨hA.2.1.trans hcompl, hA.2.2.1.trans hlen, ?_, ?_⟩
  · intro hp0
    refine paired_addCovClearAlt gg p c ?_ ?_ (hpp hp0)
    · rw [hcompl, hlen]; exact hWF
    · intro e he; rw [hlen]; exact hc e he
  · exact (altMut_covClearFold g0 c p.path gg hWF hcompl hlen
      (fun e he => by rw [hlen]; exact hc e he) hm).1

theorem bulgeAccept_C1 (g0 : RepeatGraph) (ra : Bool) (st : BulgeScanState)
    (a b : UnbranchingPath)
    (hWF : CWF g0.complementEdge g0.edges.length)
    (hca : ∀ e ∈ a.path, e < g0.edges.length)
    (hcb : ∀ e ∈ b.path, e < g0.edges.length)
    (hcompl : st.g.complementEdge = g0.complementEdge)
    (hlen : st.g.edges.length = g0.edges.length)
    (hpp : Paired g0 → Paired st.g) (hm : AltMut g0 st.g) :
    (bulgeAccept ra st a b).g.complementEdge = g0.complementEdge ∧
    (bulgeAccept ra st a b).g.edges.length = g0.edges.length ∧
    (Paired g0 → Paired (bulgeAccept ra st a b).g) ∧
    AltMut g0 (bulgeAccept ra st a b).g := by
  obtain ⟨q1, q2, q3, q4⟩ := markPathAlt_C1 g0 st.g a hWF hca hcompl hlen hpp hm
  obtain ⟨r1, r2, r3, r4⟩ := markPathAlt_C1 g0 (markPathAlt st.g a) b hWF hcb q1 q2 q3 q4
  cases ra
  · exact ⟨r1, r2, r3, r4⟩
  · exact addCovClearAlt_C1 g0 (markPathAlt (markPathAlt st.g a) b) b
      a.meanCoverage hWF hcb r1 r2 r3 r4

theorem bulgeScanFrom_C1 (maxLen : Nat) (ra : Bool) (g0 : RepeatGraph)
    (ups : List UnbranchingPath)
    (hWF : CWF g0.complementEdge g0.edges.length)
    (hb : ∀ p ∈ ups, ∀ e ∈ p.path, e < g0.edges.length)
    (l : List UnbranchingPath) (st : BulgeScanState)
    (hcompl : st.g.complementEdge = g0.complementEdge)
    (hlen : st.g.edges.length = g0.edges.length)
    (hpp : Paired g0 → Paired st.g) (hm : AltMut g0 st.g) :
    (bulgeScanFrom maxLen ra ups st l).g.complementEdge = g0.complementEdge ∧
    (bulgeScanFrom maxLen ra ups st l).g.edges.length = g0.edges.length ∧
    (Paired g0 → Paired (bulgeScanFrom maxLen ra ups st l).g) ∧
    AltMut g0 (bulgeScanFrom maxLen ra ups st l).g := by
  induction l generalizing st with
  | nil => exact ⟨hcompl, hlen, hpp, hm⟩
  | cons p l ih =>
    unfold bulgeScanFrom
    rw [List.foldl_cons]
    rcases bulgeScanStep_cases maxLen ra ups st p with h | ⟨a, b, hma, hmb, _, _, h⟩
    · rw [h]
      exact ih st hcompl hlen hpp hm
    · rw [h]
      obtain ⟨q1, q2, q3, q4⟩ := bulgeAccept_C1 g0 ra st a b hWF
        (hb a hma) (hb b hmb) hcompl hlen hpp hm
      exact ih (bulgeAccept ra st a b) q1 q2 q3 q4

theorem loopAccept_C1 (g0 : RepeatGraph) (st : LoopScanState)
    (loop ent ex : UnbranchingPath)
    (hWF : CWF g0.complementEdge g0.edges.length)
    (hc : ∀ e ∈ loop.path, e < g0.edges.length)
    (hcompl : st.g.complementEdge = g0.complementEdge)
    (hlen : st.g.edges.length = g0.edges.length)
    (hpp : Paired g0 → Paired st.g) (hm : AltMut g0 st.g) :
    (loopAccept st loop ent ex).g.complementEdge = g0.complementEdge ∧
    (loopAccept st loop ent ex).g.edges.length = g0.edges.length ∧
    (Paired g0 → Paired (loopAccept st loop ent ex).g) ∧
    AltMut g0 (loopAccept st loop ent ex).g := by
  rw [loopAccept_g]
  exact markPathAlt_C1 g0 st.g loop hWF hc hcompl hlen hpp hm

theorem loopScanFrom_C1 (g0 : RepeatGraph) (ups : List UnbranchingPath)
    (hWF : CWF g0.complementEdge g0.edges.length)
    (hb : ∀ p ∈ ups, ∀ e ∈ p.path, e < g0.edges.length)
    (l : List UnbranchingPath) (hl : ∀ p ∈ l, p ∈ ups) (st : LoopScanState)
    (hcompl : st.g.complementEdge = g0.complementEdge)
    (hlen : st.g.edges.length = g0.edges.length)
    (hpp : Paired g0 → Paired st.g) (hm : AltMut g0 st.g) :
    (loopScanFrom ups st l).g.complementEdge = g0.complementEdge ∧
    (loopScanFrom ups st l).g.edges.length = g0.edges.length ∧
    (Paired g0 → Paired (loopScanFrom ups st l).g) ∧
    AltMut g0 (loopScanFrom ups st l).g := by
  induction l generalizing st with
  | nil => exact ⟨hcompl, hlen, hpp, hm⟩
  | cons p l ih =>
    unfold loopScanFrom
    rw [List.foldl_cons]
    have hl' : ∀ q ∈ l, q ∈ ups := fun q hq => hl q (List.mem_cons_of_mem p hq)
    rcases loopScanStep_cases ups st p with h | ⟨ent, ex, h⟩
    · rw [h]
      exact ih hl' st hcompl hlen hpp hm
    · rw [h]
      obtain ⟨q1, q2, q3, q4⟩ := loopAccept_C1 g0 st p ent ex hWF
        (hb p (hl p (List.mem_cons_self p l))) hcompl hlen hpp hm
      exact ih hl' (loopAccept st p ent ex) q1 q2 q3 q4

theorem altMut_refl (g : RepeatGraph) : AltMut g g :=
  fun _ _ hne => absurd rfl hne

theorem bulge_pass_C1 (maxLen : Nat) (ra : Bool) (g : RepeatGraph)
    (ups : List UnbranchingPath)
    (hWF : CWF g.complementEdge g.edges.length)
    (hb : ∀ p ∈ ups, ∀ e ∈ p.path, e < g.edges.length) :
    (Paired g → Paired (collapseHeterozygousBulges maxLen g ups ra).1) ∧
    AltMut g (collapseHeterozygousBulges maxLen g ups ra).1 := by
  obtain ⟨q1, q2, q3, q4⟩ := bulgeScanFrom_C1 maxLen ra g ups hWF hb ups
    ⟨g, [], 0⟩ rfl rfl (fun h => h) (altMut_refl g)
  cases ra
  · exact ⟨q3, q4⟩
  · have hcommit := altCovEq_bulgeCommit
      (bulgeScanFrom maxLen true ups ⟨g, [], 0⟩ ups).toSeparate ups
      (bulgeScanFrom maxLen true ups ⟨g, [], 0⟩ ups).g
    exact ⟨fun hp => paired_of_altCovEq hcommit (q3 hp),
      altMut_of_altCovEq g hcommit q4⟩

theorem loop_pass_C1 (ra : Bool) (g : RepeatGraph) (ups : List UnbranchingPath)
    (hWF : CWF g.complementEdge g.edges.length)
    (hb : ∀ p ∈ ups, ∀ e ∈ p.path, e < g.edges.length) :
    (Paired g → Paired (collapseHeterozygousLoops g ups ra).1) ∧
    AltMut g (collapseHeterozygousLoops g ups ra).1 := by
  obtain ⟨q1, q2, q3, q4⟩ := loopScanFrom_C1 g ups hWF hb ups (fun p hp => hp)
    ⟨g, [], [], 0⟩ rfl rfl (fun h => h) (altMut_refl g)
  cases ra
  · exact ⟨q3, q4⟩
  · have hcommit := altCovEq_loopCommit
      (loopScanFrom ups ⟨g, [], [], 0⟩ ups).toUnroll
      (loopScanFrom ups ⟨g, [], [], 0⟩ ups).toRemove ups
      (loopScanFrom ups ⟨g, [], [], 0⟩ ups).g
    exact ⟨fun hp => paired_of_altCovEq hcommit (q3 hp),
      altMut_of_altCovEq g hcommit q4⟩

theorem complWFb_iff (g : RepeatGraph) :
    complWFb g = true ↔ CWF g.complementEdge g.edges.length := by
  unfold complWFb CWF
  rw [List.all_eq_true]
  constructor
  · intro h i hi
    have := h i (List.mem_range.mpr hi)
    simpa [Bool.and_eq_true, decide_eq_true_eq] using this
  · intro h i hi
    have := h i (List.mem_range.mp hi)
    simp [Bool.and_eq_true, decide_eq_true_eq, this.1, this.2]

theorem twinSyncB_iff (g : RepeatGraph) : twinSyncB g = true ↔ Paired g := by
  unfold twinSyncB Paired
  rw [List.all_eq_true]
  constructor
  · intro h i hi
    have := h i (List.mem_range.mpr hi)
    simpa [Bool.and_eq_true, decide_eq_true_eq] using this
  · intro h i hi
    have := h i (List.mem_range.mp hi)
    simp [Bool.and_eq_true, decide_eq_true_eq, this.1, this.2]

theorem altMutB_iff (g0 g : RepeatGraph) : altMutB g0 g = true ↔ AltMut g0 g := by
  unfold altMutB AltMut
  rw [List.all_eq_true]
  constructor
  · intro h i hi
    have := h i (List.mem_range.mpr hi)
    rwa [decide_eq_true_eq] at this
  · intro h i hi
    rw [decide_eq_true_eq]
    exact h i (List.mem_range.mp hi)

theorem upsInBounds_bounds (g : RepeatGraph) (ups : List UnbranchingPath)
    (h : upsInBounds g ups = true) :
    ∀ p ∈ ups, ∀ e ∈ p.path, e < g.edges.length := by
  unfold upsInBounds at h
  rw [List.all_eq_true] at h
  intro p hp e he
  have h1 := h p hp
  rw [Bool.and_eq_true] at h1
  have h2 := h1.2
  rw [List.all_eq_true] at h2
  have := h2 e he
  rwa [decide_eq_true_eq] at this

/-- Claim C1 (amended): assume the twin map is an involution on the edge range
and the paths reference existing edges.  Then after any invocation of
`collapseHeterozygousBulges` or `collapseHeterozygousLoops` (either mode):
(a) if twin-equality of `altHaplotype` and `meanCoverage` held for every edge
before the pass, it holds for every edge after it (in particular for every
mutated edge); and (b) unconditionally, every edge whose `altHaplotype` the
pass changed agrees with its twin on `altHaplotype` afterwards.  The original
claim's unconditional twin-equality of `meanCoverage` for mutated edges is
false (see the counterexample): the pass adds equal amounts to both twins, so
a pre-existing coverage difference survives. -/
theorem twin_consistency_after_collapse_passes (maxLen : Nat) (ra : Bool)
    (g : RepeatGraph) (ups : List UnbranchingPath)
    (hWF : complWFb g = true) (hIn : upsInBounds g ups = true) :
    (twinSyncB g = true →
      twinSyncB (collapseHeterozygousBulges maxLen g ups ra).1 = true ∧
      twinSyncB (collapseHeterozygousLoops g ups ra).1 = true) ∧
    altMutB g (collapseHeterozygousBulges maxLen g ups ra).1 = true ∧
    altMutB g (collapseHeterozygousLoops g ups ra).1 = true := by
  have hWF' := (complWFb_iff g).mp hWF
  have hb := upsInBounds_bounds g ups hIn
  obtain ⟨hbp, hbm⟩ := bulge_pass_C1 maxLen ra g ups hWF' hb
  obtain ⟨hlp, hlm⟩ := loop_pass_C1 ra g ups hWF' hb
  refine ⟨fun hsync => ?_, ?_, ?_⟩
  · have hp := (twinSyncB_iff g).mp hsync
    exact ⟨(twinSyncB_iff _).mpr (hbp hp), (twinSyncB_iff _).mpr (hlp hp)⟩
  · exact (altMutB_iff g _).mpr hbm
  · exact (altMutB_iff g _).mpr hlm

/-- Claim C1 witness: scenario 1 (both passes, collapse mode) with a
twin-consistent input. -/
theorem twin_consistency_witness :
    complWFb gBulge = true ∧ upsInBounds gBulge upsBulge = true ∧
    twinSyncB gBulge = true ∧
    ((twinSyncB gBulge = true →
       twinSyncB (collapseHeterozygousBulges 50000 gBulge upsBulge true).1 = true ∧
       twinSyncB (collapseHeterozygousLoops gBulge upsBulge true).1 = true) ∧
     altMutB gBulge (collapseHeterozygousBulges 50000 gBulge upsBulge true).1 = true ∧
     altMutB gBulge (collapseHeterozygousLoops gBulge upsBulge true).1 = true) :=
  ⟨by decide, by decide, by decide,
   twin_consistency_after_collapse_passes 50000 true gBulge upsBulge
     (by decide) (by decide)⟩

/-- Claim C1 counterexample: start from scenario 1 but with the twin
coverages out of sync (edge 4 carries 20, its twin edge 5 carries 21) — an
input the claim's unconditional first clause still covers.  The collapse-mode
bulge pass mutates both (adding branch A's coverage 10), leaving 30 ≠ 31: a
mutated edge whose `meanCoverage` differs from its twin's. -/
theorem twin_consistency_counterexample :
    complWFb gBulgeTwinErr = true ∧
    upsInBounds gBulgeTwinErr upsBulgeTwinErr = true ∧
    gBulgeTwinErr.complementEdge 4 = 5 ∧
    (gBulgeTwinErr.edge 4).meanCoverage = 20 ∧
    ((collapseHeterozygousBulges 50000 gBulgeTwinErr upsBulgeTwinErr
        true).1.edge 4).meanCoverage = 30 ∧
    ((collapseHeterozygousBulges 50000 gBulgeTwinErr upsBulgeTwinErr
        true).1.edge 5).meanCoverage = 31 :=
  ⟨by decide, by decide, by decide, by with_unfolding_all decide,
   by with_unfolding_all decide, by with_unfolding_all decide⟩

/-! ## The collapse-mode bulge pass when it reports zero -/

theorem SeqId.rc_ne (s : SeqId) : s.rc ≠ s := by
  intro h
  have := congrArg SeqId.strand h
  simp [SeqId.rc] at this

theorem setInsert_length_ge (s : List SeqId) (x : SeqId) :
    s.length ≤ (setInsert s x).length := by
  unfold setInsert
  split_ifs with h
  · exact le_refl _
  · exact Nat.le_succ _

theorem setInsert_length_two (s : List SeqId) (x : SeqId) (hx : x ∉ s) :
    2 ≤ (setInsert (setInsert s x) x.rc).length := by
  unfold setInsert
  rw [if_neg hx]
  split_ifs with h
  · rcases List.mem_cons.mp h with h1 | h1
    · exact absurd h1 (SeqId.rc_ne x)
    · have : 1 ≤ s.length := List.length_pos.mpr (List.ne_nil_of_mem h1)
      simp only [List.length_cons]
      omega
  · simp only [List.length_cons]
    omega

theorem bulgeAccept_true_toSep_two (st : BulgeScanState) (a b : UnbranchingPath)
    (ha : a.id ∉ st.toSeparate) :
    2 ≤ (bulgeAccept true st a b).toSeparate.length := by
  rw [bulgeAccept_true_toSeparate]
  exact setInsert_length_two st.toSeparate a.id ha

theorem bulgeScanStep_toSep_mono (maxLen : Nat) (ra : Bool)
    (ups : List UnbranchingPath) (st : BulgeScanState) (p : UnbranchingPath) :
    st.toSeparate.length ≤ (bulgeScanStep maxLen ra ups st p).toSeparate.length := by
  rcases bulgeScanStep_cases maxLen ra ups st p with h | ⟨a, b, _, _, _, _, h⟩
  · rw [h]
  · rw [h]
    cases ra
    · rw [bulgeAccept_false_toSeparate]
    · rw [bulgeAccept_true_toSeparate]
      exact le_trans (setInsert_length_ge _ _) (setInsert_length_ge _ _)

theorem bulgeScanFrom_toSep_mono (maxLen : Nat) (ra : Bool)
    (ups l : List UnbranchingPath) (st : BulgeScanState) :
    st.toSeparate.length ≤ (bulgeScanFrom maxLen ra ups st l).toSeparate.length := by
  induction l generalizing st with
  | nil => exact le_refl _
  | cons p l ih =>
    unfold bulgeScanFrom
    rw [List.foldl_cons]
    exact le_trans (bulgeScanStep_toSep_mono maxLen ra ups st p)
      (ih (bulgeScanStep maxLen ra ups st p))

theorem bulgeScanFrom_of_small (maxLen : Nat) (ups l : List UnbranchingPath)
    (st : BulgeScanState)
    (h : (bulgeScanFrom maxLen true ups st l).toSeparate.length ≤ 1) :
    bulgeScanFrom maxLen true ups st l = st := by
  induction l generalizing st with
  | nil => rfl
  | cons p l ih =>
    unfold bulgeScanFrom at h ⊢
    rw [List.foldl_cons] at h ⊢
    rcases bulgeScanStep_cases maxLen true ups st p with hstep | ⟨a, b, _, _, hta, _, hstep⟩
    · rw [hstep] at h ⊢
      exact ih st h
    · exfalso
      rw [hstep] at h
      have h2 := bulgeAccept_true_toSep_two st a b hta
      have h3 := bulgeScanFrom_toSep_mono maxLen true ups l (bulgeAccept true st a b)
      unfold bulgeScanFrom at h3
      omega

theorem bulgeCommit_nil (l : List UnbranchingPath) (g : RepeatGraph) :
    l.foldl (fun gg p =>
      if p.id ∈ ([] : List SeqId) then separatePath gg p else gg) g = g := by
  induction l generalizing g with
  | nil => rfl
  | cons p l ih =>
    rw [List.foldl_cons, if_neg (List.not_mem_nil p.id)]
    exact ih g

/-- Claim C7 (amended): `collapseHeterozygousBulges` in collapse mode is NOT
idempotent in general — collapsing a bubble can merge paths and create a new
bubble for a later run (see the counterexample).  What does hold: whenever a
collapse-mode run returns 0 it staged no path, it left the graph completely
unchanged, and rerunning it on the same graph and path list returns 0
again. -/
theorem bulge_collapse_zero_run_stable (maxLen : Nat) (g : RepeatGraph)
    (ups : List UnbranchingPath)
    (h : (collapseHeterozygousBulges maxLen g ups true).2 = 0) :
    (collapseHeterozygousBulges maxLen g ups true).1 = g ∧
    (collapseHeterozygousBulges maxLen
      (collapseHeterozygousBulges maxLen g ups true).1 ups true).2 = 0 := by
  have hret : (collapseHeterozygousBulges maxLen g ups true).2 =
      (bulgeScanFrom maxLen true ups ⟨g, [], 0⟩ ups).toSeparate.length / 2 := rfl
  rw [hret] at h
  have hle : (bulgeScanFrom maxLen true ups ⟨g, [], 0⟩ ups).toSeparate.length ≤ 1 := by
    omega
  have hscan := bulgeScanFrom_of_small maxLen ups ups ⟨g, [], 0⟩ hle
  have hg : (collapseHeterozygousBulges maxLen g ups true).1 = g := by
    show ups.foldl (fun gg p =>
      if p.id ∈ (bulgeScanFrom maxLen true ups ⟨g, [], 0⟩ ups).toSeparate then
        separatePath gg p else gg)
      (bulgeScanFrom maxLen true ups ⟨g, [], 0⟩ ups).g = g
    rw [hscan]
    exact bulgeCommit_nil ups g
  refine ⟨hg, ?_⟩
  rw [hg, hret, hscan]
  simp

/-- Claim C7 witness: on the coverage-rejected scenario the collapse run
returns 0, so the graph is unchanged and a second run also returns 0. -/
theorem bulge_collapse_zero_run_stable_witness :
    (collapseHeterozygousBulges 50000 gBulgeRej upsBulgeRej true).2 = 0 ∧
    ((collapseHeterozygousBulges 50000 gBulgeRej upsBulgeRej true).1 = gBulgeRej ∧
     (collapseHeterozygousBulges 50000
       (collapseHeterozygousBulges 50000 gBulgeRej upsBulgeRej true).1
       upsBulgeRej true).2 = 0) :=
  ⟨by with_unfolding_all decide,
   bulge_collapse_zero_run_stable 50000 gBulgeRej upsBulgeRej
     (by with_unfolding_all decide)⟩

/-- Claim C7 counterexample: the nested-bulge graph `gC7`.  Its path list and
graph satisfy the extractor contract and adjacency coherence; the first
collapse-mode run returns 1 (the inner bubble), after which `p`, `b` and `t`
merge into one unbranching path that forms a new bubble against `q` — the
second run (on the freshly extracted, contract-satisfying path list) returns
2, not 0. -/
theorem bulge_collapse_idempotence_counterexample :
    coherentAdjB gC7 = true ∧
    extractorContractB gC7 ups0C7 = true ∧
    (collapseHeterozygousBulges 50000 gC7 ups0C7 true).2 = 1 ∧
    extractorContractB (collapseHeterozygousBulges 50000 gC7 ups0C7 true).1
      ups1C7 = true ∧
    (collapseHeterozygousBulges 50000
      (collapseHeterozygousBulges 50000 gC7 ups0C7 true).1 ups1C7 true).2 = 2 :=
  ⟨by decide, by with_unfolding_all decide, by with_unfolding_all decide,
   by with_unfolding_all decide, by with_unfolding_all decide⟩

/-! ## The entrance and exit lookups under the extractor contract -/

theorem headD_mem {l : List Nat} (h : l ≠ []) : l.headD 0 ∈ l := by
  cases l with
  | nil => exact absurd rfl h
  | cons x t => exact List.mem_cons_self x t

theorem mem_last_or_succ {l : List Nat} {e : Nat} (he : e ∈ l) :
    e = l.getLastD 0 ∨ ∃ f, (e, f) ∈ l.zip l.tail := by
  induction l with
  | nil => cases he
  | cons x t ih =>
    cases t with
    | nil =>
      left
      rcases List.mem_singleton.mp he with rfl
      rfl
    | cons y t2 =>
      rcases List.mem_cons.mp he with rfl | hmem
      · right
        exact ⟨y, List.mem_cons_self _ _⟩
      · rcases ih hmem with h1 | ⟨f, hf⟩
        · left
          exact h1
        · right
          exact ⟨f, List.mem_cons_of_mem _ hf⟩

theorem mem_head_or_pred {l : List Nat} {e : Nat} (he : e ∈ l) :
    e = l.headD 0 ∨ ∃ f, (f, e) ∈ l.zip l.tail := by
  induction l with
  | nil => cases he
  | cons x t ih =>
    rcases List.mem_cons.mp he with rfl | hmem
    · left
      rfl
    · cases t with
      | nil => cases hmem
      | cons y t2 =>
        rcases ih hmem with h1 | ⟨f, hf⟩
        · right
          refine ⟨x, ?_⟩
          rw [h1]
          exact List.mem_cons_self _ _
        · right
          exact ⟨f, List.mem_cons_of_mem _ hf⟩

theorem pairwiseB_mem {α : Type} (r : α → α → Bool) (l : List α)
    (h : pairwiseB r l = true) {a b : α} (ha : a ∈ l) (hb : b ∈ l) :
    a = b ∨ r a b = true ∨ r b a = true := by
  induction l with
  | nil => cases ha
  | cons x xs ih =>
    simp only [pairwiseB, Bool.and_eq_true, List.all_eq_true] at h
    rcases List.mem_cons.mp ha with rfl | ha2
    · rcases List.mem_cons.mp hb with rfl | hb2
      · exact Or.inl rfl
      · exact Or.inr (Or.inl (h.1 b hb2))
    · rcases List.mem_cons.mp hb with rfl | hb2
      · exact Or.inr (Or.inr (h.1 a ha2))
      · exact ih h.2 ha2 hb2

theorem extractor_parts (g : RepeatGraph) (ups : List UnbranchingPath)
    (h : extractorContractB g ups = true) :
    upsInBounds g ups = true ∧
    (∀ p ∈ ups, pathConnectedB g p = true ∧ pathInteriorB g p = true ∧
      pathMaximalB g p = true ∧ pathFieldsB g p = true) ∧
    pathsCoverB g ups = true ∧ pathsDisjointB ups = true := by
  unfold extractorContractB at h
  simp only [Bool.and_eq_true, List.all_eq_true] at h
  obtain ⟨⟨⟨⟨h1, h2⟩, h3⟩, h4⟩, _⟩ := h
  refine ⟨h1, fun p hp => ?_, h3, h4⟩
  have hpp := h2 p hp
  exact ⟨hpp.1.1.1, hpp.1.1.2, hpp.1.2, hpp.2⟩

theorem upsInBounds_ne_nil (g : RepeatGraph) (ups : List UnbranchingPath)
    (h : upsInBounds g ups = true) : ∀ p ∈ ups, p.path ≠ [] := by
  unfold upsInBounds at h
  simp only [List.all_eq_true, Bool.and_eq_true] at h
  intro p hp hnil
  have h2 := (h p hp).1
  rw [hnil] at h2
  simp at h2

theorem pathsCover_mem (g : RepeatGraph) (ups : List UnbranchingPath)
    (h : pathsCoverB g ups = true) {e : EdgeId} (he : e < g.edges.length) :
    ∃ q ∈ ups, e ∈ q.path := by
  unfold pathsCoverB at h
  rw [List.all_eq_true] at h
  have h2 := h e (List.mem_range.mpr he)
  simp only [List.any_eq_true] at h2
  obtain ⟨q, hq, hc⟩ := h2
  refine ⟨q, hq, ?_⟩
  simpa using hc

theorem pathFields_id {g : RepeatGraph} {p : UnbranchingPath}
    (h : pathFieldsB g p = true) : p.id = (g.edge p.front).edgeId := by
  unfold pathFieldsB at h
  simp only [Bool.and_eq_true] at h
  exact of_decide_eq_true h.1.1

theorem pathInterior_at {g : RepeatGraph} {p : UnbranchingPath}
    (h : pathInteriorB g p = true) {e f : EdgeId}
    (hm : (e, f) ∈ p.path.zip p.path.tail) :
    (g.node ((g.edge e).nodeRight)).inEdges.length = 1 ∧
    (g.node ((g.edge e).nodeRight)).outEdges.length = 1 := by
  unfold pathInteriorB at h
  rw [List.all_eq_true] at h
  exact of_decide_eq_true (h (e, f) hm)

theorem pathConnected_at {g : RepeatGraph} {p : UnbranchingPath}
    (h : pathConnectedB g p = true) {e f : EdgeId}
    (hm : (e, f) ∈ p.path.zip p.path.tail) :
    (g.edge e).nodeRight = (g.edge f).nodeLeft := by
  unfold pathConnectedB at h
  rw [List.all_eq_true] at h
  exact of_decide_eq_true (h (e, f) hm)

theorem coherent_node (g : RepeatGraph) (h : coherentAdjB g = true) {v : NodeId}
    (hv : v < g.nodes.length) :
    (∀ e ∈ (g.node v).inEdges, e < g.edges.length ∧ (g.edge e).nodeRight = v) ∧
    (∀ e ∈ (g.node v).outEdges, e < g.edges.length ∧ (g.edge e).nodeLeft = v) ∧
    (g.node v).inEdges.Nodup ∧ (g.node v).outEdges.Nodup := by
  unfold coherentAdjB at h
  simp only [Bool.and_eq_true, List.all_eq_true] at h
  obtain ⟨hn, _⟩ := h
  obtain ⟨⟨⟨hin, hout⟩, hnd1⟩, hnd2⟩ := hn v (List.mem_range.mpr hv)
  refine ⟨fun e he => ?_, fun e he => ?_,
    of_decide_eq_true hnd1, of_decide_eq_true hnd2⟩
  · obtain ⟨ha, hb⟩ := hin e he
    exact ⟨of_decide_eq_true ha, of_decide_eq_true hb⟩
  · obtain ⟨ha, hb⟩ := hout e he
    exact ⟨of_decide_eq_true ha, of_decide_eq_true hb⟩

theorem coherent_edgeId_inj (g : RepeatGraph) (h : coherentAdjB g = true)
    {i j : EdgeId} (hi : i < g.edges.length) (hj : j < g.edges.length)
    (hid : (g.edge i).edgeId = (g.edge j).edgeId) : i = j := by
  unfold coherentAdjB at h
  simp only [Bool.and_eq_true] at h
  by_contra hne
  rcases pairwiseB_mem _ _ h.2 (List.mem_range.mpr hi) (List.mem_range.mpr hj)
    with heq | hr | hr
  · exact hne heq
  · exact of_decide_eq_true hr hid
  · exact of_decide_eq_true hr hid.symm

theorem node_in_range_of_inEdges (g : RepeatGraph) (v : NodeId)
    (h : (g.node v).inEdges ≠ []) : v < g.nodes.length := by
  by_contra hv
  apply h
  unfold RepeatGraph.node
  rw [listGetD_out_of_bounds g.nodes v defaultNode hv]
  rfl

theorem node_in_range_of_outEdges (g : RepeatGraph) (v : NodeId)
    (h : (g.node v).outEdges ≠ []) : v < g.nodes.length := by
  by_contra hv
  apply h
  unfold RepeatGraph.node
  rw [listGetD_out_of_bounds g.nodes v defaultNode hv]
  rfl

theorem cover_path_last (g : RepeatGraph) (ups : List UnbranchingPath)
    (hcov : pathsCoverB g ups = true)
    (hint : ∀ p ∈ ups, pathInteriorB g p = true)
    {v : NodeId} {e : EdgeId} (helen : e < g.edges.length)
    (hev : (g.edge e).nodeRight = v)
    (hdeg : ¬((g.node v).inEdges.length = 1 ∧ (g.node v).outEdges.length = 1)) :
    ∃ q, q ∈ ups ∧ q.back = e ∧ g.pathNodeRight q = v := by
  obtain ⟨q, hq, hqe⟩ := pathsCover_mem g ups hcov helen
  rcases mem_last_or_succ hqe with hlast | ⟨f, hf⟩
  · have hback : q.back = e := hlast.symm
    refine ⟨q, hq, hback, ?_⟩
    unfold RepeatGraph.pathNodeRight
    rw [hback, hev]
  · exfalso
    have h2 := pathInterior_at (hint q hq) hf
    rw [hev] at h2
    exact hdeg h2

theorem cover_path_first (g : RepeatGraph) (ups : List UnbranchingPath)
    (hcov : pathsCoverB g ups = true)
    (hint : ∀ p ∈ ups, pathInteriorB g p = true)
    (hconn : ∀ p ∈ ups, pathConnectedB g p = true)
    {v : NodeId} {e : EdgeId} (helen : e < g.edges.length)
    (hev : (g.edge e).nodeLeft = v)
    (hdeg : ¬((g.node v).inEdges.length = 1 ∧ (g.node v).outEdges.length = 1)) :
    ∃ q, q ∈ ups ∧ q.front = e ∧ g.pathNodeLeft q = v := by
  obtain ⟨q, hq, hqe⟩ := pathsCover_mem g ups hcov helen
  rcases mem_head_or_pred hqe with hhead | ⟨f, hf⟩
  · have hfront : q.front = e := hhead.symm
    refine ⟨q, hq, hfront, ?_⟩
    unfold RepeatGraph.pathNodeLeft
    rw [hfront, hev]
  · exfalso
    have hcn := pathConnected_at (hconn q hq) hf
    have h2 := pathInterior_at (hint q hq) hf
    rw [hcn, hev] at h2
    exact hdeg h2

theorem bulgeEntrance_isSome_core (g : RepeatGraph) (ups : List UnbranchingPath)
    (hadj : coherentAdjB g = true) (hex : extractorContractB g ups = true)
    (a : UnbranchingPath)
    (h1 : (g.node (g.pathNodeLeft a)).inEdges.length = 1)
    (h2 : (g.node (g.pathNodeLeft a)).outEdges.length = 2) :
    (bulgeEntrance g ups a).isSome = true := by
  obtain ⟨e, he⟩ := List.length_eq_one.mp h1
  have hne : (g.node (g.pathNodeLeft a)).inEdges ≠ [] := by
    rw [he]
    exact List.cons_ne_nil e []
  have hv := node_in_range_of_inEdges g _ hne
  have hco := coherent_node g hadj hv
  have hem : e ∈ (g.node (g.pathNodeLeft a)).inEdges := by
    rw [he]
    exact List.mem_cons_self e []
  obtain ⟨helen, hev⟩ := hco.1 e hem
  obtain ⟨_, hall, hcov, _⟩ := extractor_parts g ups hex
  have hdeg : ¬((g.node (g.pathNodeLeft a)).inEdges.length = 1 ∧
      (g.node (g.pathNodeLeft a)).outEdges.length = 1) := by
    rintro ⟨_, hc⟩
    omega
  obtain ⟨q, hq, _, hright⟩ := cover_path_last g ups hcov
    (fun p hp => (hall p hp).2.1) helen hev hdeg
  have hmem : q ∈ ups.filter fun c => decide (g.pathNodeRight c = g.pathNodeLeft a) :=
    List.mem_filter.mpr ⟨hq, decide_eq_true hright⟩
  unfold bulgeEntrance
  rw [List.getLast?_isSome]
  exact List.ne_nil_of_mem hmem

theorem bulgeExit_isSome_core (g : RepeatGraph) (ups : List UnbranchingPath)
    (hadj : coherentAdjB g = true) (hex : extractorContractB g ups = true)
    (a : UnbranchingPath)
    (h1 : (g.node (g.pathNodeRight a)).outEdges.length = 1)
    (h2 : (g.node (g.pathNodeRight a)).inEdges.length = 2) :
    (bulgeExit g ups a).isSome = true := by
  obtain ⟨e, he⟩ := List.length_eq_one.mp h1
  have hne : (g.node (g.pathNodeRight a)).outEdges ≠ [] := by
    rw [he]
    exact List.cons_ne_nil e []
  have hv := node_in_range_of_outEdges g _ hne
  have hco := coherent_node g hadj hv
  have hem : e ∈ (g.node (g.pathNodeRight a)).outEdges := by
    rw [he]
    exact List.mem_cons_self e []
  obtain ⟨helen, hev⟩ := hco.2.1 e hem
  obtain ⟨_, hall, hcov, _⟩ := extractor_parts g ups hex
  have hdeg : ¬((g.node (g.pathNodeRight a)).inEdges.length = 1 ∧
      (g.node (g.pathNodeRight a)).outEdges.length = 1) := by
    rintro ⟨hc, _⟩
    omega
  obtain ⟨q, hq, _, hleft⟩ := cover_path_first g ups hcov
    (fun p hp => (hall p hp).2.1) (fun p hp => (hall p hp).1) helen hev hdeg
  have hmem : q ∈ ups.filter fun c => decide (g.pathNodeLeft c = g.pathNodeRight a) :=
    List.mem_filter.mpr ⟨hq, decide_eq_true hleft⟩
  unfold bulgeExit
  rw [List.getLast?_isSome]
  exact List.ne_nil_of_mem hmem

theorem loopEntrance_isSome_core (g : RepeatGraph) (ups : List UnbranchingPath)
    (hadj : coherentAdjB g = true) (hex : extractorContractB g ups = true)
    (loop : UnbranchingPath) (hloop : loop ∈ ups)
    (h1 : (g.node (g.pathNodeLeft loop)).inEdges.length = 2)
    (h2 : (g.node (g.pathNodeLeft loop)).outEdges.length = 2) :
    (loopEntrance g ups loop).isSome = true := by
  obtain ⟨x, y, hxy⟩ := List.length_eq_two.mp h1
  have hne : (g.node (g.pathNodeLeft loop)).inEdges ≠ [] := by
    rw [hxy]
    exact List.cons_ne_nil x [y]
  have hv := node_in_range_of_inEdges g _ hne
  have hco := coherent_node g hadj hv
  have hxmem : x ∈ (g.node (g.pathNodeLeft loop)).inEdges := by
    rw [hxy]
    exact List.mem_cons_self x [y]
  have hymem : y ∈ (g.node (g.pathNodeLeft loop)).inEdges := by
    rw [hxy]
    exact List.mem_cons_of_mem x (List.mem_cons_self y [])
  obtain ⟨hxlen, hxv⟩ := hco.1 x hxmem
  obtain ⟨hylen, hyv⟩ := hco.1 y hymem
  have hnd := hco.2.2.1
  have hxyne : x ≠ y := by
    rw [hxy] at hnd
    simp at hnd
    exact hnd
  obtain ⟨hub, hall, hcov, hdis⟩ := extractor_parts g ups hex
  have hdeg : ¬((g.node (g.pathNodeLeft loop)).inEdges.length = 1 ∧
      (g.node (g.pathNodeLeft loop)).outEdges.length = 1) := by
    rintro ⟨hc, _⟩
    omega
  obtain ⟨qx, hqx, hqxb, hqxr⟩ := cover_path_last g ups hcov
    (fun p hp => (hall p hp).2.1) hxlen hxv hdeg
  obtain ⟨qy, hqy, hqyb, hqyr⟩ := cover_path_last g ups hcov
    (fun p hp => (hall p hp).2.1) hylen hyv hdeg
  by_cases hid : loop.id = qx.id
  · by_cases hid2 : loop.id = qy.id
    · exfalso
      have hqxnil := upsInBounds_ne_nil g ups hub qx hqx
      have hqynil := upsInBounds_ne_nil g ups hub qy hqy
      have hloopnil := upsInBounds_ne_nil g ups hub loop hloop
      have hfx : qx.front ∈ qx.path := headD_mem hqxnil
      have hfy : qy.front ∈ qy.path := headD_mem hqynil
      have hfl : loop.front ∈ loop.path := headD_mem hloopnil
      have hbx := upsInBounds_bounds g ups hub qx hqx qx.front hfx
      have hby := upsInBounds_bounds g ups hub qy hqy qy.front hfy
      have hbl := upsInBounds_bounds g ups hub loop hloop loop.front hfl
      have hidx := pathFields_id (hall qx hqx).2.2.2
      have hidy := pathFields_id (hall qy hqy).2.2.2
      have hidl := pathFields_id (hall loop hloop).2.2.2
      have e1 : (g.edge qx.front).edgeId = (g.edge loop.front).edgeId := by
        rw [← hidx, ← hidl, ← hid]
      have e2 : (g.edge qy.front).edgeId = (g.edge loop.front).edgeId := by
        rw [← hidy, ← hidl, ← hid2]
      have hfxl : qx.front = loop.front := coherent_edgeId_inj g hadj hbx hbl e1
      have hfyl : qy.front = loop.front := coherent_edgeId_inj g hadj hby hbl e2
      have hshx : loop.front ∈ qx.path := hfxl ▸ hfx
      have hshy : loop.front ∈ qy.path := hfyl ▸ hfy
      have hqq : qx = qy := by
        rcases pairwiseB_mem _ _ hdis hqx hqy with h | hr | hr
        · exact h
        · simp only [Bool.or_eq_true] at hr
          rcases hr with h | h
          · exact of_decide_eq_true h
          · exfalso
            rw [List.all_eq_true] at h
            have h3 := h loop.front hshx
            simp at h3
            exact h3 hshy
        · simp only [Bool.or_eq_true] at hr
          rcases hr with h | h
          · exact (of_decide_eq_true h).symm
          · exfalso
            rw [List.all_eq_true] at h
            have h3 := h loop.front hshy
            simp at h3
            exact h3 hshx
      rw [hqq] at hqxb
      exact hxyne (hqxb.symm.trans hqyb)
    · have hmem : qy ∈ ups.filter fun c =>
          decide (g.pathNodeRight c = g.pathNodeLeft loop ∧ loop.id ≠ c.id) :=
        List.mem_filter.mpr ⟨hqy, decide_eq_true ⟨hqyr, hid2⟩⟩
      unfold loopEntrance
      rw [List.getLast?_isSome]
      exact List.ne_nil_of_mem hmem
  · have hmem : qx ∈ ups.filter fun c =>
        decide (g.pathNodeRight c = g.pathNodeLeft loop ∧ loop.id ≠ c.id) :=
      List.mem_filter.mpr ⟨hqx, decide_eq_true ⟨hqxr, hid⟩⟩
    unfold loopEntrance
    rw [List.getLast?_isSome]
    exact List.ne_nil_of_mem hmem

theorem loopExit_isSome_core (g : RepeatGraph) (ups : List UnbranchingPath)
    (hadj : coherentAdjB g = true) (hex : extractorContractB g ups = true)
    (loop : UnbranchingPath) (hloop : loop ∈ ups)
    (h1 : (g.node (g.pathNodeLeft loop)).inEdges.length = 2)
    (h2 : (g.node (g.pathNodeLeft loop)).outEdges.length = 2) :
    (loopExit g ups loop).isSome = true := by
  obtain ⟨x, y, hxy⟩ := List.length_eq_two.mp h2
  have hne : (g.node (g.pathNodeLeft loop)).outEdges ≠ [] := by
    rw [hxy]
    exact List.cons_ne_nil x [y]
  have hv := node_in_range_of_outEdges g _ hne
  have hco := coherent_node g hadj hv
  have hxmem : x ∈ (g.node (g.pathNodeLeft loop)).outEdges := by
    rw [hxy]
    exact List.mem_cons_self x [y]
  have hymem : y ∈ (g.node (g.pathNodeLeft loop)).outEdges := by
    rw [hxy]
    exact List.mem_cons_of_mem x (List.mem_cons_self y [])
  obtain ⟨hxlen, hxv⟩ := hco.2.1 x hxmem
  obtain ⟨hylen, hyv⟩ := hco.2.1 y hymem
  have hnd := hco.2.2.2
  have hxyne : x ≠ y := by
    rw [hxy] at hnd
    simp at hnd
    exact hnd
  obtain ⟨hub, hall, hcov, hdis⟩ := extractor_parts g ups hex
  have hdeg : ¬((g.node (g.pathNodeLeft loop)).inEdges.length = 1 ∧
      (g.node (g.pathNodeLeft loop)).outEdges.length = 1) := by
    rintro ⟨hc, _⟩
    omega
  obtain ⟨qx, hqx, hqxf, hqxl⟩ := cover_path_first g ups hcov
    (fun p hp => (hall p hp).2.1) (fun p hp => (hall p hp).1) hxlen hxv hdeg
  obtain ⟨qy, hqy, hqyf, hqyl⟩ := cover_path_first g ups hcov
    (fun p hp => (hall p hp).2.1) (fun p hp => (hall p hp).1) hylen hyv hdeg
  by_cases hid : loop.id = qx.id
  · by_cases hid2 : loop.id = qy.id
    · exfalso
      have hqxnil := upsInBounds_ne_nil g ups hub qx hqx
      have hqynil := upsInBounds_ne_nil g ups hub qy hqy
      have hloopnil := upsInBounds_ne_nil g ups hub loop hloop
      have hfx : qx.front ∈ qx.path := headD_mem hqxnil
      have hfy : qy.front ∈ qy.path := headD_mem hqynil
      have hfl : loop.front ∈ loop.path := headD_mem hloopnil
      have hbx := upsInBounds_bounds g ups hub qx hqx qx.front hfx
      have hby := upsInBounds_bounds g ups hub qy hqy qy.front hfy
      have hbl := upsInBounds_bounds g ups hub loop hloop loop.front hfl
      have hidx := pathFields_id (hall qx hqx).2.2.2
      have hidy := pathFields_id (hall qy hqy).2.2.2
      have hidl := pathFields_id (hall loop hloop).2.2.2
      have e1 : (g.edge qx.front).edgeId = (g.edge loop.front).edgeId := by
        rw [← hidx, ← hidl, ← hid]
      have e2 : (g.edge qy.front).edgeId = (g.edge loop.front).edgeId := by
        rw [← hidy, ← hidl, ← hid2]
      have hfxl : qx.front = loop.front := coherent_edgeId_inj g hadj hbx hbl e1
      have hfyl : qy.front = loop.front := coherent_edgeId_inj g hadj hby hbl e2
      apply hxyne
      rw [← hqxf, ← hqyf, hfxl, hfyl]
    · have hmem : qy ∈ ups.filter fun c =>
          decide (g.pathNodeLeft c = g.pathNodeLeft loop ∧ loop.id ≠ c.id) :=
        List.mem_filter.mpr ⟨hqy, decide_eq_true ⟨hqyl, hid2⟩⟩
      unfold loopExit
      rw [List.getLast?_isSome]
      exact List.ne_nil_of_mem hmem
  · have hmem : qx ∈ ups.filter fun c =>
        decide (g.pathNodeLeft c = g.pathNodeLeft loop ∧ loop.id ≠ c.id) :=
      List.mem_filter.mpr ⟨hqx, decide_eq_true ⟨hqxl, hid⟩⟩
    unfold loopExit
    rw [List.getLast?_isSome]
    exact List.ne_nil_of_mem hmem

theorem node_adjEq {g g2 : RepeatGraph} (h : AdjEq g g2) (v : NodeId) :
    g2.node v = g.node v := by
  unfold RepeatGraph.node
  rw [h.1]

theorem pathNodeLeft_adjEq {g g2 : RepeatGraph} (h : AdjEq g g2)
    (p : UnbranchingPath) : g2.pathNodeLeft p = g.pathNodeLeft p :=
  (h.2.2.2 p.front).1

theorem pathNodeRight_adjEq {g g2 : RepeatGraph} (h : AdjEq g g2)
    (p : UnbranchingPath) : g2.pathNodeRight p = g.pathNodeRight p :=
  (h.2.2.2 p.back).2

theorem bulgeEntrance_adjEq {g g2 : RepeatGraph} (h : AdjEq g g2)
    (ups : List UnbranchingPath) (a : UnbranchingPath) :
    bulgeEntrance g2 ups a = bulgeEntrance g ups a := by
  unfold bulgeEntrance
  congr 1
  apply List.filter_congr
  intro c _
  rw [pathNodeRight_adjEq h c, pathNodeLeft_adjEq h a]

theorem bulgeExit_adjEq {g g2 : RepeatGraph} (h : AdjEq g g2)
    (ups : List UnbranchingPath) (a : UnbranchingPath) :
    bulgeExit g2 ups a = bulgeExit g ups a := by
  unfold bulgeExit
  congr 1
  apply List.filter_congr
  intro c _
  rw [pathNodeLeft_adjEq h c, pathNodeRight_adjEq h a]

theorem loopEntrance_adjEq {g g2 : RepeatGraph} (h : AdjEq g g2)
    (ups : List UnbranchingPath) (loop : UnbranchingPath) :
    loopEntrance g2 ups loop = loopEntrance g ups loop := by
  unfold loopEntrance
  congr 1
  apply List.filter_congr
  intro c _
  rw [pathNodeRight_adjEq h c, pathNodeLeft_adjEq h loop]

theorem loopExit_adjEq {g g2 : RepeatGraph} (h : AdjEq g g2)
    (ups : List UnbranchingPath) (loop : UnbranchingPath) :
    loopExit g2 ups loop = loopExit g ups loop := by
  unfold loopExit
  congr 1
  apply List.filter_congr
  intro c _
  rw [pathNodeLeft_adjEq h c, pathNodeLeft_adjEq h loop]

theorem bulgeDegreeOk_adjEq {g g2 : RepeatGraph} (h : AdjEq g g2)
    (a : UnbranchingPath) : bulgeDegreeOk g2 a = bulgeDegreeOk g a := by
  unfold bulgeDegreeOk
  rw [pathNodeLeft_adjEq h a, pathNodeRight_adjEq h a]
  simp only [node_adjEq h]

theorem adjEq_markPathAlt (g : RepeatGraph) (p : UnbranchingPath) :
    AdjEq g (markPathAlt g p) :=
  adjEq_of_altOnly (altOnly_markPathAlt g p)

theorem adjEq_bulgeAccept (ra : Bool) (st : BulgeScanState)
    (a b : UnbranchingPath) : AdjEq st.g (bulgeAccept ra st a b).g := by
  cases ra with
  | false =>
    rw [bulgeAccept_false_g]
    exact adjEq_trans (adjEq_markPathAlt st.g a) (adjEq_markPathAlt _ b)
  | true =>
    rw [bulgeAccept_true_g]
    exact adjEq_trans
      (adjEq_trans (adjEq_markPathAlt st.g a) (adjEq_markPathAlt _ b))
      (adjEq_addCovClearAlt _ b a.meanCoverage)

theorem adjEq_bulgeScanStep (maxLen : Nat) (ra : Bool)
    (ups : List UnbranchingPath) (st : BulgeScanState) (p : UnbranchingPath) :
    AdjEq st.g (bulgeScanStep maxLen ra ups st p).g := by
  rcases bulgeScanStep_cases maxLen ra ups st p with h | ⟨a, b, _, _, _, _, h⟩
  · rw [h]
    exact adjEq_refl st.g
  · rw [h]
    exact adjEq_bulgeAccept ra st a b

theorem adjEq_bulgeScanFrom (maxLen : Nat) (ra : Bool)
    (ups l : List UnbranchingPath) (st : BulgeScanState) :
    AdjEq st.g (bulgeScanFrom maxLen ra ups st l).g := by
  induction l generalizing st with
  | nil => exact adjEq_refl st.g
  | cons p l ih =>
    unfold bulgeScanFrom
    rw [List.foldl_cons]
    exact adjEq_trans (adjEq_bulgeScanStep maxLen ra ups st p)
      (ih (bulgeScanStep maxLen ra ups st p))

theorem adjEq_loopAccept (st : LoopScanState) (loop ent ex : UnbranchingPath) :
    AdjEq st.g (loopAccept st loop ent ex).g := by
  rw [loopAccept_g]
  exact adjEq_markPathAlt st.g loop

theorem adjEq_loopScanStep (ups : List UnbranchingPath) (st : LoopScanState)
    (loop : UnbranchingPath) : AdjEq st.g (loopScanStep ups st loop).g := by
  rcases loopScanStep_cases ups st loop with h | ⟨ent, ex, h⟩
  · rw [h]
    exact adjEq_refl st.g
  · rw [h]
    exact adjEq_loopAccept st loop ent ex

theorem adjEq_loopScanFrom (ups l : List UnbranchingPath) (st : LoopScanState) :
    AdjEq st.g (loopScanFrom ups st l).g := by
  induction l generalizing st with
  | nil => exact adjEq_refl st.g
  | cons p l ih =>
    unfold loopScanFrom
    rw [List.foldl_cons]
    exact adjEq_trans (adjEq_loopScanStep ups st p) (ih (loopScanStep ups st p))

/-- Claim C10: under the extractor contract (`getUnbranchingPaths` returns all
maximal unbranching paths through every edge, with the stored attributes) and
adjacency coherence of the graph, whenever a bulge candidate passes the degree
test during the scan of `collapseHeterozygousBulges`, the entrance and exit
lookups each find a path — so the subsequent dereferences of
`entrancePath`/`exitPath` never read a null pointer; likewise the lookups of
`collapseHeterozygousLoops` succeed after its degree test. -/
theorem entrance_exit_lookups_succeed (g : RepeatGraph)
    (ups : List UnbranchingPath) (maxLen : Nat) (ra : Bool)
    (hadj : coherentAdjB g = true) (hex : extractorContractB g ups = true) :
    (∀ k p a b,
      bulgeCandidate (bulgeScanUpTo maxLen ra g ups k).g ups
        (bulgeScanUpTo maxLen ra g ups k).toSeparate p = some (a, b) →
      (bulgeEntrance (bulgeScanUpTo maxLen ra g ups k).g ups a).isSome = true ∧
      (bulgeExit (bulgeScanUpTo maxLen ra g ups k).g ups a).isSome = true) ∧
    (∀ k loop, loop ∈ ups →
      loopReachesLookups (loopScanUpTo g ups k).g loop = true →
      (loopEntrance (loopScanUpTo g ups k).g ups loop).isSome = true ∧
      (loopExit (loopScanUpTo g ups k).g ups loop).isSome = true) := by
  constructor
  · intro k p a b hc
    have hadjS : AdjEq g (bulgeScanUpTo maxLen ra g ups k).g :=
      adjEq_bulgeScanFrom maxLen ra ups (ups.take k) ⟨g, [], 0⟩
    obtain ⟨ha, hb, hta, htb, hdeg⟩ := bulgeCandidate_facts _ _ _ _ _ _ hc
    rw [bulgeDegreeOk_adjEq hadjS a] at hdeg
    unfold bulgeDegreeOk at hdeg
    have hd := of_decide_eq_true hdeg
    rw [bulgeEntrance_adjEq hadjS ups a, bulgeExit_adjEq hadjS ups a]
    exact ⟨bulgeEntrance_isSome_core g ups hadj hex a hd.1 hd.2.1,
      bulgeExit_isSome_core g ups hadj hex a hd.2.2.1 hd.2.2.2⟩
  · intro k loop hmem hreach
    have hadjS : AdjEq g (loopScanUpTo g ups k).g :=
      adjEq_loopScanFrom ups (ups.take k) ⟨g, [], [], 0⟩
    unfold loopReachesLookups at hreach
    simp only [Bool.and_eq_true] at hreach
    have hdeg := of_decide_eq_true hreach.2
    rw [pathNodeLeft_adjEq hadjS loop, node_adjEq hadjS] at hdeg
    rw [loopEntrance_adjEq hadjS ups loop, loopExit_adjEq hadjS ups loop]
    exact ⟨loopEntrance_isSome_core g ups hadj hex loop hmem hdeg.1 hdeg.2,
      loopExit_isSome_core g ups hadj hex loop hmem hdeg.1 hdeg.2⟩

/-- Claim C10 witness: the simple bulge scenario satisfies both preconditions;
branch A's candidate passes the degree test at the initial scan state, and
both lookups succeed. -/
theorem entrance_exit_lookups_succeed_witness :
    coherentAdjB gBulge = true ∧ extractorContractB gBulge upsBulge = true ∧
    (bulgeEntrance gBulge upsBulge ⟨⟨2, true⟩, [2], 5, 10⟩).isSome = true ∧
    (bulgeExit gBulge upsBulge ⟨⟨2, true⟩, [2], 5, 10⟩).isSome = true := by
  have h := (entrance_exit_lookups_succeed gBulge upsBulge 50000 false
      (by decide) (by with_unfolding_all decide)).1 0
      ⟨⟨2, true⟩, [2], 5, 10⟩ ⟨⟨2, true⟩, [2], 5, 10⟩ ⟨⟨3, true⟩, [4], 5, 20⟩
      (by with_unfolding_all decide)
  exact ⟨by decide, by with_unfolding_all decide, h.1, h.2⟩
